import Mathlib

/-!
# TRAK-RayPortals: camera, materials and the recursive integrator

A shallow embedding of `camera.h` and `material.h`.

* The C++ `double` is idealised as an arbitrary linearly ordered field `F`
  (exact arithmetic: no rounding, no NaN, no infinities).  All definitions are
  computable and can be run at `F := ℚ`.
* The global random source is an explicit state `G` that is threaded through
  every function that draws from it, in the order the source draws.
* Library functions (`std::sqrt`, `std::tan`) and helpers of `utils.h`
  (`deg_to_rad`, `infinity`, `random_double`, the random vector samplers) are
  parameters, collected in `Env`.
* `shared_ptr<material>` is a handle of an arbitrary type `M`; virtual dispatch
  is a pair of functions on handles (`material_ops`).
-/

namespace RayPortals

/-! ## vec3.h, ray.h, interval.h, hittable.h (headers that the sources include) -/

/-- Modelled from the spec: the header vec3.h is missing; a vector of three `double`
components, also used for points (`point3`) and colours (`color`). -/
@[ext]
structure vec3 (F : Type) where
  x : F
  y : F
  z : F
  deriving DecidableEq

/-- Modelled from the spec: `color` is the colour alias of `vec3` (color.h is missing). -/
abbrev color (F : Type) := vec3 F

/-- Modelled from the spec: `point3` is the point alias of `vec3` (vec3.h is missing). -/
abbrev point3 (F : Type) := vec3 F

/-- Modelled from the spec: ray.h is missing; a ray is an origin and a direction
(the direction is not required to be of unit length). -/
@[ext]
structure ray (F : Type) where
  origin : point3 F
  direction : vec3 F
  deriving DecidableEq

/-- Modelled from the spec: interval.h is missing; a parameter interval given by
its two end points. -/
structure interval (F : Type) where
  min : F
  max : F

/-- Modelled from the spec: the struct `hit_record` of the missing hittable.h: hit
point, surface normal, material handle, ray parameter and front-face flag. -/
structure hit_record (F M : Type) where
  p : point3 F
  normal : vec3 F
  mat : M
  t : F
  front_face : Bool

/-- Modelled from the spec: the abstract class `hittable` of the missing hittable.h;
`hit` returns the closest intersection in the interval, or none (the C++ returns
`bool` and fills the record through a reference). -/
structure hittable (F M : Type) where
  hit : ray F → interval F → Option (hit_record F M)

/-- The external functions the sources call: the C library (`sqrt`, `tan`) and
utils.h / vec3.h helpers whose code is not part of the sources.  The random
functions read and advance the global generator state `G`. -/
structure Env (F G : Type) where
  sqrt : F → F
  tan : F → F
  deg_to_rad : F → F
  infinity : F
  near_zero_eps : F
  random_double : G → F × G
  random_unit_vector : G → vec3 F × G
  random_in_unit_disk : G → vec3 F × G

section Vec

variable {F : Type} [LinearOrderedField F] {G M : Type}

/-- Modelled from the spec: `operator+(vec3, vec3)`, component-wise. -/
instance vec3.instAdd : Add (vec3 F) := ⟨fun a b => ⟨a.x + b.x, a.y + b.y, a.z + b.z⟩⟩

/-- Modelled from the spec: `operator-(vec3, vec3)`, component-wise. -/
instance vec3.instSub : Sub (vec3 F) := ⟨fun a b => ⟨a.x - b.x, a.y - b.y, a.z - b.z⟩⟩

/-- Modelled from the spec: unary `operator-` of `vec3`. -/
instance vec3.instNeg : Neg (vec3 F) := ⟨fun a => ⟨-a.x, -a.y, -a.z⟩⟩

/-- Modelled from the spec: `operator*(vec3, vec3)`, the channel-wise product used
for `attenuation * colour`. -/
instance vec3.instMul : Mul (vec3 F) := ⟨fun a b => ⟨a.x * b.x, a.y * b.y, a.z * b.z⟩⟩

/-- Modelled from the spec: `operator*(double, vec3)` and `operator*(vec3, double)`,
scaling of every component; written `t • v`. -/
instance vec3.instSMul : SMul F (vec3 F) := ⟨fun t a => ⟨t * a.x, t * a.y, t * a.z⟩⟩

/-- Modelled from the spec: `operator/(vec3, double)`, scaling by the reciprocal. -/
def vec3.div (v : vec3 F) (t : F) : vec3 F := (1 / t) • v

/-- Modelled from the spec: `dot(u, v)`, the scalar product. -/
def dot (a b : vec3 F) : F := a.x * b.x + a.y * b.y + a.z * b.z

/-- Modelled from the spec: `cross(u, v)`, the vector product. -/
def cross (a b : vec3 F) : vec3 F :=
  ⟨a.y * b.z - a.z * b.y, a.z * b.x - a.x * b.z, a.x * b.y - a.y * b.x⟩

/-- Modelled from the spec: `vec3::length_squared()`. -/
def vec3.length_squared (v : vec3 F) : F := v.x * v.x + v.y * v.y + v.z * v.z

/-- Modelled from the spec: `vec3::length()`, the square root of the squared length. -/
def vec3.length (E : Env F G) (v : vec3 F) : F := E.sqrt v.length_squared

/-- Modelled from the spec: `unit_vector(v)`, the vector divided by its length. -/
def unit_vector (E : Env F G) (v : vec3 F) : vec3 F := v.div (v.length E)

/-- Modelled from the spec: `reflect(v, n)`, the reflection of `v` about the normal
`n`, that is `v - 2*dot(v,n)*n`. -/
def reflect (v n : vec3 F) : vec3 F := v - (2 * dot v n) • n

/-- Modelled from the spec: `vec3::near_zero()`, every component smaller in
magnitude than the threshold. -/
def vec3.near_zero (E : Env F G) (v : vec3 F) : Bool :=
  decide (|v.x| < E.near_zero_eps) && decide (|v.y| < E.near_zero_eps)
    && decide (|v.z| < E.near_zero_eps)

end Vec

/-! ## material.h -/

section Material

variable {F : Type} [LinearOrderedField F] {G M : Type}

/-- What a call of `material::scatter` leaves behind: the returned `bool` and the two
out-parameters. -/
structure scatter_result (F : Type) where
  ok : Bool
  attenuation : color F
  scattered : ray F

/-- The virtual interface of `material` on handles `M`: `scatter` (which may draw
random numbers) and `emitted`. -/
structure material_ops (F M G : Type) where
  scatter : M → ray F → hit_record F M → G → scatter_result F × G
  emitted : M → color F

/-- The class `lambertian`: a diffuse material holding an albedo. -/
structure lambertian (F : Type) where
  albedo : color F

/-- The class `metal`: a specular material holding an albedo and a fuzz factor. -/
structure metal (F : Type) where
  albedo : color F
  fuzz : F

/-- `lambertian::scatter` (material.h 13-22). -/
def lambertian.scatter (E : Env F G) (m : lambertian F) (_r_in : ray F)
    (rec : hit_record F M) (g : G) : scatter_result F × G :=
  let q := E.random_unit_vector g
  let scatter_direction := rec.normal + q.1
  let scatter_direction :=
    if scatter_direction.near_zero E then rec.normal else scatter_direction
  (⟨true, m.albedo, ⟨rec.p, scatter_direction⟩⟩, q.2)

/-- `metal::scatter` (material.h 32-38). -/
def metal.scatter (E : Env F G) (m : metal F) (r_in : ray F)
    (rec : hit_record F M) (g : G) : scatter_result F × G :=
  let reflected := reflect (unit_vector E r_in.direction) rec.normal
  let q := E.random_unit_vector g
  let scattered : ray F := ⟨rec.p, reflected + m.fuzz • q.1⟩
  (⟨decide (dot scattered.direction rec.normal > 0), m.albedo, scattered⟩, q.2)

end Material

/-! ## camera.h -/

section Camera

variable {F : Type} [LinearOrderedField F] {G M : Type}

/-- Truncation of a real number toward zero. -/
def trunc [FloorRing F] (x : F) : Int := if 0 ≤ x then ⌊x⌋ else ⌈x⌉

/-- The conversion `static_cast<int>(x)` of a `double`: the value truncated toward
zero; the behaviour is undefined (none) when the truncated value is not
representable in the 32-bit type `int`. -/
def static_cast_int [FloorRing F] (x : F) : Option Int :=
  if -2147483648 ≤ trunc x ∧ trunc x ≤ 2147483647 then some (trunc x) else none

/-- The class `camera`: the public configuration fields (with the defaults of the
source) followed by the private fields that `initialize` computes. -/
structure camera (F : Type) [LinearOrderedField F] where
  aspect_ratio : F := 1
  image_width : Int := 100
  samples_per_pixel : Int := 10
  max_depth : Int := 10
  background : color F := ⟨0, 0, 0⟩
  vfov : F := 90
  lookfrom : point3 F := ⟨0, 0, 0⟩
  lookat : point3 F := ⟨0, 0, -1⟩
  vup : vec3 F := ⟨0, 1, 0⟩
  defocus_angle : F := 0
  focus_dist : F := 10
  image_height : Int
  center : point3 F
  pixel_0 : point3 F
  pixel_delta_u : point3 F
  pixel_delta_v : point3 F
  v : vec3 F
  u : vec3 F
  w : vec3 F
  defocus_disk_u : vec3 F
  defocus_disk_v : vec3 F

/-- `camera::initialize` (camera.h 57-85): the camera with its private fields
computed from the public ones; none when the conversion to `int` is undefined. -/
def camera.initialize [FloorRing F] (E : Env F G) (c : camera F) : Option (camera F) :=
  match static_cast_int ((c.image_width : F) / c.aspect_ratio) with
  | none => none
  | some cast =>
    let image_height : Int := if cast ≥ 1 then cast else 1
    let center := c.lookfrom
    let theta := E.deg_to_rad c.vfov
    let h := E.tan (theta / 2)
    let viewport_height := 2 * h * c.focus_dist
    let actual_ratio := (c.image_width : F) / (image_height : F)
    let viewport_width := viewport_height * actual_ratio
    let w := unit_vector E (c.lookfrom - c.lookat)
    let u := unit_vector E (cross c.vup w)
    let v := cross w u
    let viewport_u := viewport_width • u
    let viewport_v := viewport_height • (-v)
    let pixel_delta_u := viewport_u.div (c.image_width : F)
    let pixel_delta_v := viewport_v.div (image_height : F)
    let corner := (pixel_delta_u + pixel_delta_v - viewport_v - viewport_u).div 2
    let pixel_0 := center - (c.focus_dist • w) + corner
    let defocus_radius := c.focus_dist * E.tan (E.deg_to_rad (c.defocus_angle / 2))
    some { c with
      image_height := image_height
      center := center
      pixel_0 := pixel_0
      pixel_delta_u := pixel_delta_u
      pixel_delta_v := pixel_delta_v
      v := v
      u := u
      w := w
      defocus_disk_u := defocus_radius • u
      defocus_disk_v := defocus_radius • v }

/-- `camera::pixel_sample_square` (camera.h 95-99): two draws of `random_double`,
first for `px`, then for `py`. -/
def camera.pixel_sample_square (E : Env F G) (c : camera F) (g : G) : vec3 F × G :=
  let d1 := E.random_double g
  let px := -(1 / 2) + d1.1
  let d2 := E.random_double d1.2
  let py := -(1 / 2) + d2.1
  ((px • c.pixel_delta_u) + (py • c.pixel_delta_v), d2.2)

/-- `camera::defocus_disk_sample` (camera.h 101-104). -/
def camera.defocus_disk_sample (E : Env F G) (c : camera F) (g : G) : point3 F × G :=
  let p := E.random_in_unit_disk g
  (c.center + (p.1.x • c.defocus_disk_u) + (p.1.y • c.defocus_disk_v), p.2)

/-- `camera::get_ray` (camera.h 87-93). -/
def camera.get_ray (E : Env F G) (c : camera F) (i j : Int) (g : G) : ray F × G :=
  let pixel_center := c.pixel_0 + ((i : F) • c.pixel_delta_u) + ((j : F) • c.pixel_delta_v)
  let s := c.pixel_sample_square E g
  let pixel_sample := pixel_center + s.1
  let ray_origin := if c.defocus_angle ≤ 0 then (c.center, s.2) else c.defocus_disk_sample E s.2
  (⟨ray_origin.1, pixel_sample - ray_origin.1⟩, ray_origin.2)

/-- The outcome of one call of `camera::ray_color`: the returned colour and the
generator state after the call, together with three ghost counters: the number
of invocations of `ray_color` (the call itself included), of scene queries
`world.hit` and of `scatter` calls that the call performed. -/
structure traced (F G : Type) where
  color : color F
  rng : G
  calls : Nat
  hits : Nat
  scatters : Nat

/-- `camera::ray_color` (camera.h 106-123). -/
def camera.ray_color (E : Env F G) (ops : material_ops F M G) (c : camera F)
    (world : hittable F M) (r : ray F) (depth : Int) (g : G) : traced F G :=
  if depth ≤ 0 then
    ⟨⟨0, 0, 0⟩, g, 1, 0, 0⟩
  else
    match world.hit r ⟨1 / 1000, E.infinity⟩ with
    | none => ⟨c.background, g, 1, 1, 0⟩
    | some rec =>
      let result := ops.emitted rec.mat
      let s := ops.scatter rec.mat r rec g
      if s.1.ok then
        let sub := camera.ray_color E ops c world s.1.scattered (depth - 1) s.2
        ⟨result + s.1.attenuation * sub.color, sub.rng, sub.calls + 1, sub.hits + 1,
          sub.scatters + 1⟩
      else
        ⟨result, s.2, 1, 1, 1⟩
termination_by depth.toNat
decreasing_by omega

end Camera

/-! ## The material classes behind one handle type -/

section Dispatch

variable {F : Type} [LinearOrderedField F] {G : Type}

/-- The two material classes of material.h as one type of handles. -/
inductive material (F : Type) where
  | lambertian (m : RayPortals.lambertian F)
  | metal (m : RayPortals.metal F)

/-- Modelled from the spec: the base class `material` is missing; its `emitted()`,
which neither `lambertian` nor `metal` overrides, is the default black. -/
def material.emitted (_m : material F) : color F := ⟨0, 0, 0⟩

/-- Virtual dispatch of `scatter` on the dynamic type of the material. -/
def material.scatter (E : Env F G) (m : material F) (r_in : ray F)
    (rec : hit_record F (material F)) (g : G) : scatter_result F × G :=
  match m with
  | .lambertian l => l.scatter E r_in rec g
  | .metal k => k.scatter E r_in rec g

/-- The material interface of the handles `material F`. -/
def material.ops (E : Env F G) : material_ops F (material F) G :=
  ⟨material.scatter E, material.emitted⟩

end Dispatch

/-! ## `camera::render` -/

section Render

variable {F : Type} [LinearOrderedField F] {G M : Type}

/-- What `render` sends to `std::cout`: the header `P3`, width, height, 255, and one
item per call `write_color(std::cout, pixel_color, samples_per_pixel)`, holding the
two arguments of the call (the encoder of color.h is not part of the sources). -/
inductive out_item (F : Type) where
  | header (width height maxval : Int)
  | pixel (pixel_color : color F) (samples : Int)

/-- What `render` sends to `std::clog`: the scanlines remaining, and the final
notice. -/
inductive log_item where
  | remaining (scanlines : Int)
  | done

/-- The two output streams and the random generator while `render` runs. -/
structure render_state (F G : Type) where
  cout : List (out_item F)
  clog : List log_item
  rng : G

/-- The loop `for (int k = 0; k < n; ++k) body(k)` on a state `S`. -/
def for_loop {S : Type} (n : Int) (body : Int → S → S) (s : S) : S :=
  (List.range n.toNat).foldl (fun (st : S) (k : ℕ) => body (k : Int) st) s

/-- The sample loop of `render` (camera.h 36-40) for pixel `(i, j)`: the accumulated
`pixel_color` and the generator state after it. -/
def camera.render_pixel (E : Env F G) (ops : material_ops F M G) (c : camera F)
    (world : hittable F M) (i j : Int) (g : G) : color F × G :=
  for_loop c.samples_per_pixel
    (fun _sample st =>
      let r := c.get_ray E i j st.2
      let t := c.ray_color E ops world r.1 c.max_depth r.2
      (st.1 + t.color, t.rng))
    (⟨0, 0, 0⟩, g)

/-- One pass of the scanline loop of `render` (camera.h 33-42) for row `j`. -/
def camera.render_row (E : Env F G) (ops : material_ops F M G) (c : camera F)
    (world : hittable F M) (j : Int) (s : render_state F G) : render_state F G :=
  for_loop c.image_width
    (fun i st =>
      let p := c.render_pixel E ops world i j st.rng
      { st with cout := st.cout ++ [out_item.pixel p.1 c.samples_per_pixel], rng := p.2 })
    { s with clog := s.clog ++ [log_item.remaining (c.image_height - j)] }

/-- `camera::render` (camera.h 28-45); none when `initialize` is undefined. -/
def camera.render [FloorRing F] (E : Env F G) (ops : material_ops F M G) (c0 : camera F)
    (world : hittable F M) (g : G) : Option (render_state F G) :=
  match camera.initialize E c0 with
  | none => none
  | some c =>
    let s0 : render_state F G := ⟨[out_item.header c.image_width c.image_height 255], [], g⟩
    let s1 := for_loop c.image_height (fun j st => c.render_row E ops world j st) s0
    some { s1 with clog := s1.clog ++ [log_item.done] }

/-- The configuration that `main` sets up (main.cc 39-50): aspect ratio 16/9, width
400, depth 50, every other public field at its default; the private fields hold
arbitrary values. -/
def main_camera : camera F where
  aspect_ratio := 16 / 9
  image_width := 400
  max_depth := 50
  image_height := 0
  center := ⟨0, 0, 0⟩
  pixel_0 := ⟨0, 0, 0⟩
  pixel_delta_u := ⟨0, 0, 0⟩
  pixel_delta_v := ⟨0, 0, 0⟩
  v := ⟨0, 0, 0⟩
  u := ⟨0, 0, 0⟩
  w := ⟨0, 0, 0⟩
  defocus_disk_u := ⟨0, 0, 0⟩
  defocus_disk_v := ⟨0, 0, 0⟩

end Render

/-! ## Definitions that follow the specification, to compare the code with -/

section Specification

variable {F : Type} [LinearOrderedField F] {G M : Type}

/-- Specification side: the pixel coordinates `(i, j)` in row-major order, rows
`j = 0 .. h-1` from top to bottom and columns `i = 0 .. w-1` from left to right
within a row. -/
def row_major (w h : Int) : List (Int × Int) :=
  (List.range h.toNat).flatMap
    (fun (j : ℕ) => (List.range w.toNat).map (fun (i : ℕ) => ((i : Int), (j : Int))))

/-- Specification side: the list of `n` successive values
`ray_color(get_ray(i, j), world, max_depth)`, and the generator state after them. -/
def camera.samples (E : Env F G) (ops : material_ops F M G) (c : camera F)
    (world : hittable F M) (i j : Int) : Nat → G → List (color F) × G
  | 0, g => ([], g)
  | n + 1, g =>
    let r := c.get_ray E i j g
    let t := c.ray_color E ops world r.1 c.max_depth r.2
    let rest := camera.samples E ops c world i j n t.rng
    (t.color :: rest.1, rest.2)

/-- Specification side: for each listed pixel in turn, the item with the sum
(starting from black) of its `samples_per_pixel` samples and the sample count. -/
def camera.pixels_spec (E : Env F G) (ops : material_ops F M G) (c : camera F)
    (world : hittable F M) : List (Int × Int) → G → List (out_item F) × G
  | [], g => ([], g)
  | ij :: rest, g =>
    let s := c.samples E ops world ij.1 ij.2 c.samples_per_pixel.toNat g
    let r := camera.pixels_spec E ops c world rest s.2
    (out_item.pixel (s.1.foldl (fun a b => a + b) ⟨0, 0, 0⟩) c.samples_per_pixel :: r.1, r.2)

/-- Specification side: the iterative integrator with a running accumulator `acc`
and a running attenuation `thr`: while `depth > 0`, a miss returns
`acc + thr * background`; a hit adds `thr * emitted` to `acc`, returns `acc` when
`scatter` is false, and otherwise multiplies `thr` by the attenuation, continues
with the scattered ray and decrements `depth`; at `depth ≤ 0` it returns `acc`. -/
def ray_color_loop (E : Env F G) (ops : material_ops F M G) (c : camera F)
    (world : hittable F M) (acc thr : color F) (r : ray F) (depth : Int) (g : G) :
    color F × G :=
  if depth ≤ 0 then
    (acc, g)
  else
    match world.hit r ⟨1 / 1000, E.infinity⟩ with
    | none => (acc + thr * c.background, g)
    | some rec =>
      let acc1 := acc + thr * ops.emitted rec.mat
      let s := ops.scatter rec.mat r rec g
      if s.1.ok then
        ray_color_loop E ops c world acc1 (thr * s.1.attenuation) s.1.scattered (depth - 1) s.2
      else
        (acc1, s.2)
termination_by depth.toNat
decreasing_by omega

/-- The viewport height that `initialize` computes (camera.h 63-65). -/
def viewport_height (E : Env F G) (c : camera F) : F :=
  2 * E.tan (E.deg_to_rad c.vfov / 2) * c.focus_dist

/-- The vector `viewport_u` of `initialize` (camera.h 66-73), along the top edge of the
viewport; its length is the viewport height times the ratio of the integer image
dimensions.  Here `c` is the initialized camera of the configuration `c0`. -/
def viewport_u (E : Env F G) (c0 c : camera F) : vec3 F :=
  (viewport_height E c0 * ((c0.image_width : F) / (c.image_height : F))) • c.u

/-- The vector `viewport_v` of `initialize` (camera.h 74), down the left edge of the
viewport. -/
def viewport_v (E : Env F G) (c0 c : camera F) : vec3 F :=
  viewport_height E c0 • (-c.v)

/-- Specification side: the upper-left corner of the viewport,
`center - focus_dist*w - viewport_u/2 - viewport_v/2`. -/
def viewport_upper_left (E : Env F G) (c0 c : camera F) : point3 F :=
  c.center - (c0.focus_dist • c.w) - (viewport_u E c0 c).div 2 - (viewport_v E c0 c).div 2

/-- The centre of pixel `(i, j)`, as `get_ray` computes it (camera.h 88). -/
def camera.pixel_center (c : camera F) (i j : Int) : point3 F :=
  c.pixel_0 + ((i : F) • c.pixel_delta_u) + ((j : F) • c.pixel_delta_v)

/-- Three vectors of unit length that are pairwise perpendicular. -/
def orthonormal (u v w : vec3 F) : Prop :=
  u.length_squared = 1 ∧ v.length_squared = 1 ∧ w.length_squared = 1 ∧
    dot u v = 0 ∧ dot v w = 0 ∧ dot u w = 0

/-- The function `sqrt` returns the exact non-negative square root of `x`. -/
def exact_sqrt (E : Env F G) (x : F) : Prop := 0 ≤ E.sqrt x ∧ E.sqrt x * E.sqrt x = x

end Specification

/-! ## Concrete inputs over the rationals, used to run the definitions -/

section Demo

/-- A square root on the rationals that is exact on squares of rationals. -/
def rat_sqrt (q : ℚ) : ℚ := (Nat.sqrt q.num.toNat : ℚ) / (Nat.sqrt q.den : ℚ)

/-- An environment over `ℚ` whose generator state is a counter. -/
def demo_env : Env ℚ ℕ where
  sqrt := rat_sqrt
  tan := fun x => x
  deg_to_rad := fun d => d * 355 / (113 * 180)
  infinity := 10 ^ 308
  near_zero_eps := 1 / 10 ^ 8
  random_double := fun g => (((g % 4 : ℕ) : ℚ) / 4, g + 1)
  random_unit_vector := fun g => (if g % 2 = 0 then ⟨0, 1, 0⟩ else ⟨1, 0, 0⟩, g + 1)
  random_in_unit_disk := fun g => (⟨1 / 2, 0, 0⟩, g + 1)

/-- The horizontal plane `y = 0` with upward normal and material `mat`. -/
def demo_plane {M : Type} (mat : M) : hittable ℚ M where
  hit := fun r iv =>
    if r.direction.y = 0 then none
    else
      let t := -r.origin.y / r.direction.y
      if iv.min < t ∧ t < iv.max then
        some ⟨r.origin + t • r.direction, ⟨0, 1, 0⟩, mat, t, decide (r.direction.y < 0)⟩
      else none

/-- A scene without any surface. -/
def demo_empty {M : Type} : hittable ℚ M where
  hit := fun _ _ => none

/-- A camera configuration with a non-black background; the private fields hold
arbitrary values, as before `initialize` has run. -/
def demo_camera : camera ℚ where
  background := ⟨1 / 2, 7 / 10, 1⟩
  image_height := 0
  center := ⟨0, 0, 0⟩
  pixel_0 := ⟨0, 0, 0⟩
  pixel_delta_u := ⟨0, 0, 0⟩
  pixel_delta_v := ⟨0, 0, 0⟩
  v := ⟨0, 0, 0⟩
  u := ⟨0, 0, 0⟩
  w := ⟨0, 0, 0⟩
  defocus_disk_u := ⟨0, 0, 0⟩
  defocus_disk_v := ⟨0, 0, 0⟩

/-- A material interface with an emissive material: handle `true` scatters straight
up with attenuation one half, handle `false` absorbs; both emit. -/
def demo_ops : material_ops ℚ Bool ℕ where
  scatter := fun m _ rec g =>
    (⟨m, ⟨1 / 2, 1 / 2, 1 / 2⟩, ⟨rec.p, ⟨0, 1, 0⟩⟩⟩, g + 1)
  emitted := fun m => if m then ⟨1, 1, 1⟩ else ⟨3, 2, 1⟩

/-- A ray that falls onto the plane `y = 0` from the point `(0, 1, 0)`. -/
def demo_ray : ray ℚ := ⟨⟨0, 1, 0⟩, ⟨0, -2, 0⟩⟩

/-- The hit record of `demo_ray` on the plane `y = 0` with material `mat`. -/
def demo_hit {M : Type} (mat : M) : hit_record ℚ M := ⟨⟨0, 0, 0⟩, ⟨0, 1, 0⟩, mat, 1 / 2, true⟩

/-- A perfect mirror: metal with fuzz 0. -/
def demo_mirror : metal ℚ := ⟨⟨4 / 5, 4 / 5, 4 / 5⟩, 0⟩

/-- The state of `demo_camera` after `initialize` in `demo_env`. -/
def demo_camera_ready : camera ℚ :=
  { demo_camera with
    image_height := 100
    center := ⟨0, 0, 0⟩
    pixel_0 := ⟨-7029 / 904, 7029 / 904, -10⟩
    pixel_delta_u := ⟨71 / 452, 0, 0⟩
    pixel_delta_v := ⟨0, -71 / 452, 0⟩
    v := ⟨0, 1, 0⟩
    u := ⟨1, 0, 0⟩
    w := ⟨0, 0, 1⟩
    defocus_disk_u := ⟨0, 0, 0⟩
    defocus_disk_v := ⟨0, 0, 0⟩ }

/-- A configuration with the largest `int` as image width and aspect ratio one half. -/
def demo_wide : camera ℚ :=
  { demo_camera with image_width := 2147483647, aspect_ratio := 1 / 2 }

/-- The default configuration with aspect ratio 16/9 (width 100, hence height 56). -/
def demo_camera_169 : camera ℚ := { demo_camera with aspect_ratio := 16 / 9 }

/-- A small configuration: 2 by 2 pixels, 2 samples per pixel, depth 3. -/
def demo_small : camera ℚ :=
  { demo_camera with image_width := 2, samples_per_pixel := 2, max_depth := 3 }

/-- The configuration `demo_camera` with a lens: defocus angle 2 degrees. -/
def demo_lens : camera ℚ := { demo_camera with defocus_angle := 2 }

/-- The state of `demo_lens` after `initialize` in `demo_env`. -/
def demo_lens_ready : camera ℚ :=
  { demo_camera_ready with
    defocus_angle := 2
    defocus_disk_u := ⟨355 / 2034, 0, 0⟩
    defocus_disk_v := ⟨0, 355 / 2034, 0⟩ }

/-- A diffuse material. -/
def demo_lambertian : lambertian ℚ := ⟨⟨7 / 10, 3 / 10, 3 / 10⟩⟩

/-- A configuration that looks from `(0, 3, 4)` down to the origin. -/
def demo_tilted : camera ℚ :=
  { demo_camera with lookfrom := ⟨0, 3, 4⟩, lookat := ⟨0, 0, 0⟩ }

end Demo

/-! ## Component lemmas for `vec3` -/

section VecLemmas

variable {F : Type} [LinearOrderedField F]

@[simp] theorem vec3.add_x (a b : vec3 F) : (a + b).x = a.x + b.x := rfl
@[simp] theorem vec3.add_y (a b : vec3 F) : (a + b).y = a.y + b.y := rfl
@[simp] theorem vec3.add_z (a b : vec3 F) : (a + b).z = a.z + b.z := rfl
@[simp] theorem vec3.sub_x (a b : vec3 F) : (a - b).x = a.x - b.x := rfl
@[simp] theorem vec3.sub_y (a b : vec3 F) : (a - b).y = a.y - b.y := rfl
@[simp] theorem vec3.sub_z (a b : vec3 F) : (a - b).z = a.z - b.z := rfl
@[simp] theorem vec3.neg_x (a : vec3 F) : (-a).x = -a.x := rfl
@[simp] theorem vec3.neg_y (a : vec3 F) : (-a).y = -a.y := rfl
@[simp] theorem vec3.neg_z (a : vec3 F) : (-a).z = -a.z := rfl
@[simp] theorem vec3.mul_x (a b : vec3 F) : (a * b).x = a.x * b.x := rfl
@[simp] theorem vec3.mul_y (a b : vec3 F) : (a * b).y = a.y * b.y := rfl
@[simp] theorem vec3.mul_z (a b : vec3 F) : (a * b).z = a.z * b.z := rfl
@[simp] theorem vec3.smul_x (t : F) (a : vec3 F) : (t • a).x = t * a.x := rfl
@[simp] theorem vec3.smul_y (t : F) (a : vec3 F) : (t • a).y = t * a.y := rfl
@[simp] theorem vec3.smul_z (t : F) (a : vec3 F) : (t • a).z = t * a.z := rfl
@[simp] theorem vec3.div_x (a : vec3 F) (t : F) : (a.div t).x = 1 / t * a.x := rfl
@[simp] theorem vec3.div_y (a : vec3 F) (t : F) : (a.div t).y = 1 / t * a.y := rfl
@[simp] theorem vec3.div_z (a : vec3 F) (t : F) : (a.div t).z = 1 / t * a.z := rfl

end VecLemmas

/-! ## The integrator `ray_color` -/

section Integrator

variable {F : Type} [LinearOrderedField F] {G M : Type}

/-- C1: with `depth ≤ 0` (zero or negative) `ray_color` returns black for every ray,
scene and background, leaves the random generator untouched and performs no
scene query and no `scatter` call; the result does not depend on the scene. -/
theorem ray_color_depth_nonpos (E : Env F G) (ops : material_ops F M G) (c : camera F)
    (world : hittable F M) (r : ray F) (depth : Int) (g : G) (h : depth ≤ 0) :
    c.ray_color E ops world r depth g = ⟨⟨0, 0, 0⟩, g, 1, 0, 0⟩ := by
  rw [camera.ray_color, if_pos h]

/-- Witness of C1: depth 0 and depth -3 on the empty scene with a non-black
background. -/
theorem ray_color_depth_nonpos_witness :
    ((0 : Int) ≤ 0 ∧
      demo_camera.ray_color demo_env demo_ops demo_empty demo_ray 0 0
        = ⟨⟨0, 0, 0⟩, 0, 1, 0, 0⟩) ∧
    ((-3 : Int) ≤ 0 ∧
      demo_camera.ray_color demo_env demo_ops demo_empty demo_ray (-3) 0
        = ⟨⟨0, 0, 0⟩, 0, 1, 0, 0⟩) ∧
    demo_camera.background ≠ ⟨0, 0, 0⟩ :=
  ⟨⟨le_refl 0, ray_color_depth_nonpos demo_env demo_ops demo_camera demo_empty demo_ray 0 0
      (le_refl 0)⟩,
    ⟨by decide, ray_color_depth_nonpos demo_env demo_ops demo_camera demo_empty demo_ray (-3) 0
      (by decide)⟩,
    by simp [demo_camera]⟩

/-- C2: with `depth ≥ 1`, when the scene reports no hit in `(0.001, infinity)`,
`ray_color` returns exactly the configured background colour (after one scene
query, without any `scatter` call and without drawing random numbers). -/
theorem ray_color_miss (E : Env F G) (ops : material_ops F M G) (c : camera F)
    (world : hittable F M) (r : ray F) (depth : Int) (g : G) (h : 1 ≤ depth)
    (hmiss : world.hit r ⟨1 / 1000, E.infinity⟩ = none) :
    c.ray_color E ops world r depth g = ⟨c.background, g, 1, 1, 0⟩ := by
  have hd : ¬ depth ≤ 0 := by omega
  rw [camera.ray_color, if_neg hd, hmiss]

/-- Witness of C2: depth 5 on the empty scene. -/
theorem ray_color_miss_witness :
    (1 : Int) ≤ 5 ∧ demo_empty.hit demo_ray ⟨1 / 1000, demo_env.infinity⟩
        = (none : Option (hit_record ℚ Bool)) ∧
      demo_camera.ray_color demo_env demo_ops demo_empty demo_ray 5 0
        = ⟨⟨1 / 2, 7 / 10, 1⟩, 0, 1, 1, 0⟩ :=
  ⟨by decide, rfl,
    ray_color_miss demo_env demo_ops demo_camera demo_empty demo_ray 5 0 (by decide) rfl⟩

/-- C3: with `depth ≥ 1`, on a hit whose material scatters (returns true with
attenuation `a` and scattered ray `s`), `ray_color` is
`emitted() + a * ray_color(s, world, depth - 1)` with the channel-wise product; the
one recursive call runs at `depth - 1` on the generator state that `scatter`
left, and the call adds one scene query and one `scatter` call to those of the
recursive call. -/
theorem ray_color_scatter (E : Env F G) (ops : material_ops F M G) (c : camera F)
    (world : hittable F M) (r : ray F) (depth : Int) (g : G) (h : 1 ≤ depth)
    (rec : hit_record F M) (a : color F) (s : ray F) (g1 : G)
    (hhit : world.hit r ⟨1 / 1000, E.infinity⟩ = some rec)
    (hs : ops.scatter rec.mat r rec g = (⟨true, a, s⟩, g1)) :
    c.ray_color E ops world r depth g =
      ⟨ops.emitted rec.mat + a * (c.ray_color E ops world s (depth - 1) g1).color,
        (c.ray_color E ops world s (depth - 1) g1).rng,
        (c.ray_color E ops world s (depth - 1) g1).calls + 1,
        (c.ray_color E ops world s (depth - 1) g1).hits + 1,
        (c.ray_color E ops world s (depth - 1) g1).scatters + 1⟩ := by
  have hd : ¬ depth ≤ 0 := by omega
  rw [camera.ray_color, if_neg hd, hhit]
  simp only [hs, if_true]

/-- C4: with `depth ≥ 1`, on a hit whose material absorbs (`scatter` returns false),
`ray_color` returns exactly the material's `emitted()` colour: the out-values
`a` and `s` are ignored, there is no recursive call (one invocation, one scene
query, one `scatter` call) and the background is not added. -/
theorem ray_color_absorb (E : Env F G) (ops : material_ops F M G) (c : camera F)
    (world : hittable F M) (r : ray F) (depth : Int) (g : G) (h : 1 ≤ depth)
    (rec : hit_record F M) (a : color F) (s : ray F) (g1 : G)
    (hhit : world.hit r ⟨1 / 1000, E.infinity⟩ = some rec)
    (hs : ops.scatter rec.mat r rec g = (⟨false, a, s⟩, g1)) :
    c.ray_color E ops world r depth g = ⟨ops.emitted rec.mat, g1, 1, 1, 1⟩ := by
  have hd : ¬ depth ≤ 0 := by omega
  rw [camera.ray_color, if_neg hd, hhit]
  simp [hs]

/-- The plane `y = 0` is hit by `demo_ray` at parameter one half. -/
theorem demo_plane_hit {M : Type} (mat : M) :
    (demo_plane mat).hit demo_ray ⟨1 / 1000, demo_env.infinity⟩ = some (demo_hit mat) := by
  simp only [demo_plane, demo_ray, demo_env, demo_hit]
  norm_num
  ext <;> simp

/-- Witness of C3: the scattering material `true` on the plane, depth 2. -/
theorem ray_color_scatter_witness :
    (1 : Int) ≤ 2 ∧
    (demo_plane true).hit demo_ray ⟨1 / 1000, demo_env.infinity⟩ = some (demo_hit true) ∧
    demo_ops.scatter true demo_ray (demo_hit true) 0
      = (⟨true, ⟨1 / 2, 1 / 2, 1 / 2⟩, ⟨⟨0, 0, 0⟩, ⟨0, 1, 0⟩⟩⟩, 1) ∧
    demo_camera.ray_color demo_env demo_ops (demo_plane true) demo_ray 2 0 =
      ⟨demo_ops.emitted true + ⟨1 / 2, 1 / 2, 1 / 2⟩ *
          (demo_camera.ray_color demo_env demo_ops (demo_plane true)
            ⟨⟨0, 0, 0⟩, ⟨0, 1, 0⟩⟩ (2 - 1) 1).color,
        (demo_camera.ray_color demo_env demo_ops (demo_plane true)
            ⟨⟨0, 0, 0⟩, ⟨0, 1, 0⟩⟩ (2 - 1) 1).rng,
        (demo_camera.ray_color demo_env demo_ops (demo_plane true)
            ⟨⟨0, 0, 0⟩, ⟨0, 1, 0⟩⟩ (2 - 1) 1).calls + 1,
        (demo_camera.ray_color demo_env demo_ops (demo_plane true)
            ⟨⟨0, 0, 0⟩, ⟨0, 1, 0⟩⟩ (2 - 1) 1).hits + 1,
        (demo_camera.ray_color demo_env demo_ops (demo_plane true)
            ⟨⟨0, 0, 0⟩, ⟨0, 1, 0⟩⟩ (2 - 1) 1).scatters + 1⟩ :=
  ⟨by decide, demo_plane_hit true, rfl,
    ray_color_scatter demo_env demo_ops demo_camera (demo_plane true) demo_ray 2 0 (by decide)
      (demo_hit true) ⟨1 / 2, 1 / 2, 1 / 2⟩ ⟨⟨0, 0, 0⟩, ⟨0, 1, 0⟩⟩ 1 (demo_plane_hit true) rfl⟩

/-- Witness of C4: the absorbing, emissive material `false` on the plane, depth 2,
with a non-black background. -/
theorem ray_color_absorb_witness :
    (1 : Int) ≤ 2 ∧
    (demo_plane false).hit demo_ray ⟨1 / 1000, demo_env.infinity⟩ = some (demo_hit false) ∧
    demo_ops.scatter false demo_ray (demo_hit false) 0
      = (⟨false, ⟨1 / 2, 1 / 2, 1 / 2⟩, ⟨⟨0, 0, 0⟩, ⟨0, 1, 0⟩⟩⟩, 1) ∧
    demo_camera.ray_color demo_env demo_ops (demo_plane false) demo_ray 2 0 =
      ⟨⟨3, 2, 1⟩, 1, 1, 1, 1⟩ :=
  ⟨by decide, demo_plane_hit false, rfl,
    ray_color_absorb demo_env demo_ops demo_camera (demo_plane false) demo_ray 2 0 (by decide)
      (demo_hit false) ⟨1 / 2, 1 / 2, 1 / 2⟩ ⟨⟨0, 0, 0⟩, ⟨0, 1, 0⟩⟩ 1 (demo_plane_hit false) rfl⟩

end Integrator

/-! ## The materials -/

section MaterialLemmas

variable {F : Type} [LinearOrderedField F] {G M : Type}

/-- A non-zero vector has a positive squared length. -/
theorem vec3.length_squared_pos (v : vec3 F) (h : v ≠ ⟨0, 0, 0⟩) : 0 < v.length_squared := by
  have h0 : 0 ≤ v.x * v.x + v.y * v.y + v.z * v.z :=
    add_nonneg (add_nonneg (mul_self_nonneg _) (mul_self_nonneg _)) (mul_self_nonneg _)
  rcases h0.lt_or_eq with hlt | heq
  · exact hlt
  · exfalso
    apply h
    have hx : v.x = 0 := by nlinarith [mul_self_nonneg v.x, mul_self_nonneg v.y, mul_self_nonneg v.z]
    have hy : v.y = 0 := by nlinarith [mul_self_nonneg v.x, mul_self_nonneg v.y, mul_self_nonneg v.z]
    have hz : v.z = 0 := by nlinarith [mul_self_nonneg v.x, mul_self_nonneg v.y, mul_self_nonneg v.z]
    ext <;> assumption

/-- Reflection commutes with scaling of the incoming vector, so the scalar product
of the reflected vector with the normal scales with it. -/
theorem dot_reflect_div (v n : vec3 F) (t : F) :
    dot (reflect (v.div t) n) n = 1 / t * dot (reflect v n) n := by
  simp only [dot, reflect, vec3.sub_x, vec3.sub_y, vec3.sub_z, vec3.smul_x, vec3.smul_y,
    vec3.smul_z, vec3.div_x, vec3.div_y, vec3.div_z]
  ring

/-- Adding zero times a vector changes nothing. -/
theorem vec3.add_zero_smul (a q : vec3 F) : a + (0 : F) • q = a := by
  ext <;> simp

/-- C5: `lambertian::scatter` returns true and sets the attenuation to the albedo,
whatever the incoming ray, the hit record and the random unit vector are. -/
theorem lambertian_scatter_always (E : Env F G) (m : lambertian F) (r_in : ray F)
    (rec : hit_record F M) (g : G) :
    (m.scatter E r_in rec g).1.ok = true ∧
      (m.scatter E r_in rec g).1.attenuation = m.albedo :=
  ⟨rfl, rfl⟩

/-- C7: `metal::scatter` sets the scattered direction to
`reflect(unit_vector(d), n) + fuzz * q` for the drawn random unit vector `q`,
returns true exactly when that direction has a strictly positive scalar product
with the normal (so a zero product is an absorption), and sets the attenuation to
the albedo whatever it returns. -/
theorem metal_scatter_spec (E : Env F G) (m : metal F) (r_in : ray F)
    (rec : hit_record F M) (g : G) :
    (m.scatter E r_in rec g).1.scattered.direction
        = reflect (unit_vector E r_in.direction) rec.normal
          + m.fuzz • (E.random_unit_vector g).1 ∧
      ((m.scatter E r_in rec g).1.ok = true
        ↔ 0 < dot (m.scatter E r_in rec g).1.scattered.direction rec.normal) ∧
      (dot (m.scatter E r_in rec g).1.scattered.direction rec.normal = 0
        → (m.scatter E r_in rec g).1.ok = false) ∧
      (m.scatter E r_in rec g).1.attenuation = m.albedo := by
  refine ⟨rfl, ?_, ?_, rfl⟩
  · simp [metal.scatter]
  · intro h0
    have h1 : dot (reflect (unit_vector E r_in.direction) rec.normal
        + m.fuzz • (E.random_unit_vector g).1) rec.normal = 0 := h0
    simp [metal.scatter, h1]

/-- C6 (amended): for a metal with fuzz 0 and an incoming ray of non-zero direction
`d`, the scattered ray starts at the hit point, its direction is
`reflect(unit_vector(d), n)` exactly (the random vector has no influence), and
`scatter` returns true exactly when `dot(reflect(d, n), n) > 0`.  The square root
is assumed positive on positive numbers. -/
theorem metal_scatter_mirror (E : Env F G) (m : metal F) (r_in : ray F)
    (rec : hit_record F M) (g : G) (hf : m.fuzz = 0)
    (hd : r_in.direction ≠ ⟨0, 0, 0⟩) (hsqrt : ∀ x : F, 0 < x → 0 < E.sqrt x) :
    (m.scatter E r_in rec g).1.scattered.origin = rec.p ∧
      (m.scatter E r_in rec g).1.scattered.direction
        = reflect (unit_vector E r_in.direction) rec.normal ∧
      ((m.scatter E r_in rec g).1.ok = true
        ↔ 0 < dot (reflect r_in.direction rec.normal) rec.normal) := by
  have hdir : (m.scatter E r_in rec g).1.scattered.direction
      = reflect (unit_vector E r_in.direction) rec.normal := by
    simp only [metal.scatter, hf]
    exact vec3.add_zero_smul _ _
  have hL : 0 < E.sqrt r_in.direction.length_squared :=
    hsqrt _ (vec3.length_squared_pos _ hd)
  refine ⟨rfl, hdir, ?_⟩
  have hok : (m.scatter E r_in rec g).1.ok
      = decide (dot (m.scatter E r_in rec g).1.scattered.direction rec.normal > 0) := rfl
  rw [hok, hdir, unit_vector, vec3.length, dot_reflect_div]
  simp only [gt_iff_lt, decide_eq_true_eq]
  constructor
  · intro h
    by_contra hn
    have hle : dot (reflect r_in.direction rec.normal) rec.normal ≤ 0 := not_lt.mp hn
    have : 1 / E.sqrt r_in.direction.length_squared
        * dot (reflect r_in.direction rec.normal) rec.normal ≤ 0 :=
      mul_nonpos_of_nonneg_of_nonpos (one_div_pos.mpr hL).le hle
    exact absurd h (not_lt.mpr this)
  · intro h
    exact mul_pos (one_div_pos.mpr hL) h

end MaterialLemmas

/-! ## The camera: `initialize` and `get_ray` -/

section CameraLemmas

variable {F : Type} [LinearOrderedField F] {G M : Type}

/-- The conversion to `int` succeeds exactly on the values whose truncation is
in the range of `int`, and then yields the truncation. -/
theorem static_cast_int_eq_some [FloorRing F] (x : F)
    (h : -2147483648 ≤ trunc x ∧ trunc x ≤ 2147483647) :
    static_cast_int x = some (trunc x) := by
  simp only [static_cast_int, if_pos h]

/-- A successful conversion to `int` yields the truncated value. -/
theorem static_cast_int_some [FloorRing F] (x : F) (k : Int)
    (h : static_cast_int x = some k) :
    k = trunc x ∧ -2147483648 ≤ trunc x ∧ trunc x ≤ 2147483647 := by
  unfold static_cast_int at h
  split at h
  · rename_i hr
    exact ⟨(Option.some.inj h).symm, hr⟩
  · cases h

/-- The public fields that `initialize` leaves alone, and the eye point. -/
theorem camera.initialize_public [FloorRing F] (E : Env F G) (c0 c : camera F)
    (hinit : camera.initialize E c0 = some c) :
    c.center = c0.lookfrom ∧ c.defocus_angle = c0.defocus_angle ∧
      c.background = c0.background ∧ c.image_width = c0.image_width ∧
      c.samples_per_pixel = c0.samples_per_pixel ∧ c.max_depth = c0.max_depth := by
  unfold camera.initialize at hinit
  split at hinit
  · cases hinit
  · cases hinit
    exact ⟨rfl, rfl, rfl, rfl, rfl, rfl⟩

/-- The image height that `initialize` stores: the converted quotient, raised to 1. -/
theorem camera.initialize_image_height [FloorRing F] (E : Env F G) (c0 c : camera F)
    (hinit : camera.initialize E c0 = some c) :
    c.image_height = max 1 (trunc ((c0.image_width : F) / c0.aspect_ratio)) := by
  unfold camera.initialize at hinit
  split at hinit
  · cases hinit
  · rename_i k hk
    cases hinit
    obtain ⟨hk1, -⟩ := static_cast_int_some _ _ hk
    show (if k ≥ 1 then k else 1) = _
    rw [← hk1]
    split
    · rw [max_eq_right]; omega
    · rw [max_eq_left]; omega

/-- When the quotient converts to `int`, `initialize` yields a camera. -/
theorem camera.initialize_isSome [FloorRing F] (E : Env F G) (c0 : camera F)
    (h : -2147483648 ≤ trunc ((c0.image_width : F) / c0.aspect_ratio) ∧
      trunc ((c0.image_width : F) / c0.aspect_ratio) ≤ 2147483647) :
    ∃ c, camera.initialize E c0 = some c := by
  unfold camera.initialize
  rw [static_cast_int_eq_some _ h]
  exact ⟨_, rfl⟩

/-- The origin and the generator state of `get_ray` when `defocus_angle ≤ 0`. -/
theorem camera.get_ray_no_defocus (E : Env F G) (c : camera F) (i j : Int) (g : G)
    (hd : c.defocus_angle ≤ 0) :
    (c.get_ray E i j g).1.origin = c.center ∧
      (c.get_ray E i j g).2 = (E.random_double (E.random_double g).2).2 := by
  constructor <;> simp only [camera.get_ray, if_pos hd, camera.pixel_sample_square]

/-- C8: for a camera initialized with `defocus_angle ≤ 0`, the ray of `get_ray` starts
exactly at the eye point `center = lookfrom`, for every pixel and every random
draw; the lens-disk sampler is not consulted: the generator state after the
call is the one after the two draws of the pixel jitter, and replacing the
sampler by any other changes neither the ray nor the state. -/
theorem get_ray_origin_no_defocus [FloorRing F] (E : Env F G) (c0 c : camera F) (i j : Int)
    (g : G) (hinit : camera.initialize E c0 = some c) (hd : c0.defocus_angle ≤ 0) :
    (c.get_ray E i j g).1.origin = c.center ∧ c.center = c0.lookfrom ∧
      (c.get_ray E i j g).2 = (E.random_double (E.random_double g).2).2 ∧
      ∀ disk : G → vec3 F × G,
        c.get_ray { E with random_in_unit_disk := disk } i j g = c.get_ray E i j g := by
  obtain ⟨hc, hda, -⟩ := camera.initialize_public E c0 c hinit
  have hd1 : c.defocus_angle ≤ 0 := by rw [hda]; exact hd
  refine ⟨(camera.get_ray_no_defocus E c i j g hd1).1, hc,
    (camera.get_ray_no_defocus E c i j g hd1).2, ?_⟩
  intro disk
  simp only [camera.get_ray, if_pos hd1, camera.pixel_sample_square]

/-- C9 (amended): for a positive aspect ratio whose quotient
`image_width / aspect_ratio`, truncated toward zero, is representable as an `int`,
`initialize` succeeds and stores `image_height = max(1, trunc(quotient))`; hence
`image_height ≥ 1` and the two divisions by `image_height` do not divide by zero. -/
theorem initialize_image_height_clamped [FloorRing F] (E : Env F G) (c0 : camera F)
    (_hpos : 0 < c0.aspect_ratio)
    (hrange : -2147483648 ≤ trunc ((c0.image_width : F) / c0.aspect_ratio) ∧
      trunc ((c0.image_width : F) / c0.aspect_ratio) ≤ 2147483647) :
    ∃ c, camera.initialize E c0 = some c ∧
      c.image_height = max 1 (trunc ((c0.image_width : F) / c0.aspect_ratio)) ∧
      1 ≤ c.image_height ∧ (c.image_height : F) ≠ 0 := by
  obtain ⟨c, hc⟩ := camera.initialize_isSome E c0 hrange
  have hh := camera.initialize_image_height E c0 c hc
  have h1 : 1 ≤ c.image_height := by rw [hh]; exact le_max_left _ _
  refine ⟨c, hc, hh, h1, ?_⟩
  have : (0 : F) < (c.image_height : F) := by exact_mod_cast (by omega : 0 < c.image_height)
  exact ne_of_gt this

/-- C10: with the two jitter draws `r1`, `r2` in `[0, 1)`, `get_ray` aims at
`pixel_0 + (i + px) * pixel_delta_u + (j + py) * pixel_delta_v` where `px = r1 - 0.5`
and `py = r2 - 0.5` both lie in `[-0.5, 0.5)`, and the direction of the ray is that
target minus the origin of the ray.  It holds in every camera state, so in
particular after `initialize`. -/
theorem get_ray_target (E : Env F G) (c : camera F) (i j : Int) (g g1 g2 : G) (r1 r2 : F)
    (hr1 : E.random_double g = (r1, g1)) (hr2 : E.random_double g1 = (r2, g2))
    (h1 : 0 ≤ r1 ∧ r1 < 1) (h2 : 0 ≤ r2 ∧ r2 < 1) :
    (-(1 / 2) ≤ r1 - 1 / 2 ∧ r1 - 1 / 2 < 1 / 2) ∧
      (-(1 / 2) ≤ r2 - 1 / 2 ∧ r2 - 1 / 2 < 1 / 2) ∧
      (c.get_ray E i j g).1.direction
        = c.pixel_0 + ((i : F) + (r1 - 1 / 2)) • c.pixel_delta_u
            + ((j : F) + (r2 - 1 / 2)) • c.pixel_delta_v
          - (c.get_ray E i j g).1.origin := by
  refine ⟨⟨by linarith [h1.1], by linarith [h1.2]⟩, ⟨by linarith [h2.1], by linarith [h2.2]⟩, ?_⟩
  simp only [camera.get_ray, camera.pixel_sample_square, hr1, hr2]
  ext <;> simp <;> ring

/-- Truncation rounds toward zero: it keeps the sign and drops less than one. -/
theorem trunc_toward_zero [FloorRing F] (x : F) :
    (0 ≤ x → 0 ≤ trunc x ∧ (trunc x : F) ≤ x ∧ x < (trunc x : F) + 1) ∧
      (x < 0 → trunc x ≤ 0 ∧ x ≤ (trunc x : F) ∧ (trunc x : F) - 1 < x) := by
  constructor
  · intro h
    simp only [trunc, if_pos h]
    exact ⟨Int.floor_nonneg.mpr h, Int.floor_le x, Int.lt_floor_add_one x⟩
  · intro h
    simp only [trunc, if_neg (not_le.mpr h)]
    refine ⟨Int.ceil_le.mpr (by simpa using h.le), Int.le_ceil x, ?_⟩
    have := Int.ceil_lt_add_one x
    linarith

end CameraLemmas

/-! ## Evaluation at the concrete inputs -/

section DemoLemmas

/-- The rational square root is positive on positive numbers. -/
theorem rat_sqrt_pos (x : ℚ) (h : 0 < x) : 0 < rat_sqrt x := by
  unfold rat_sqrt
  have hn : 0 < x.num := Rat.num_pos.mpr h
  have hn1 : 0 < x.num.toNat := by omega
  have hd : 0 < x.den := x.den_pos
  apply div_pos
  · exact_mod_cast Nat.sqrt_pos.mpr hn1
  · exact_mod_cast Nat.sqrt_pos.mpr hd

/-- The rational square root of 1. -/
theorem rat_sqrt_one : rat_sqrt 1 = 1 := by
  norm_num [rat_sqrt, Nat.sqrt]

/-- The rational square root of 4. -/
theorem rat_sqrt_four : rat_sqrt 4 = 2 := by
  have h : (4 : ℚ).num.toNat = 4 := rfl
  have h1 : (4 : ℚ).den = 1 := rfl
  rw [rat_sqrt, h, h1]
  norm_num [Nat.sqrt, Nat.sqrt.iter]

/-- The quotient of the default configuration truncates to 100. -/
theorem demo_trunc :
    trunc ((demo_camera.image_width : ℚ) / demo_camera.aspect_ratio) = 100 := by
  norm_num [trunc, demo_camera]

/-- The quotient of `demo_wide` truncates to 4294967294, above the largest `int`. -/
theorem demo_wide_trunc :
    trunc ((demo_wide.image_width : ℚ) / demo_wide.aspect_ratio) = 4294967294 := by
  norm_num [trunc, demo_wide, demo_camera]

/-- Running `initialize` on the default configuration. -/
theorem demo_camera_init : camera.initialize demo_env demo_camera = some demo_camera_ready := by
  unfold camera.initialize
  rw [static_cast_int_eq_some _ (by rw [demo_trunc]; decide), demo_trunc]
  simp only [demo_camera, demo_camera_ready, demo_env, unit_vector, vec3.length,
    vec3.length_squared, cross]
  norm_num [rat_sqrt_one, vec3.ext_iff]

/-- The mirror `demo_mirror` sends `demo_ray` straight up with unit length. -/
theorem demo_mirror_direction :
    (demo_mirror.scatter demo_env demo_ray (demo_hit ()) 0).1.scattered.direction
      = ⟨0, 1, 0⟩ := by
  simp only [metal.scatter, demo_mirror, demo_ray, demo_hit, demo_env, unit_vector,
    vec3.length, vec3.length_squared, reflect, dot]
  norm_num [rat_sqrt_four, vec3.ext_iff]

/-- The reflection of the direction of `demo_ray` itself has length 2. -/
theorem demo_reflect : reflect demo_ray.direction (demo_hit ()).normal = ⟨0, 2, 0⟩ := by
  simp only [demo_ray, demo_hit, reflect, dot]
  norm_num [vec3.ext_iff]

/-- Counterexample to C6 as stated: a fuzz-0 metal hit by the ray of direction
`(0,-2,0)` on a surface of normal `(0,1,0)` scatters into `(0,1,0)`, the reflection
of the unit direction, whereas `reflect(d, n)` is `(0,2,0)`. -/
theorem metal_scatter_mirror_counterexample :
    demo_mirror.fuzz = 0 ∧ demo_ray.direction ≠ ⟨0, 0, 0⟩ ∧
      (demo_mirror.scatter demo_env demo_ray (demo_hit ()) 0).1.scattered.direction
        = ⟨0, 1, 0⟩ ∧
      reflect demo_ray.direction (demo_hit ()).normal = ⟨0, 2, 0⟩ ∧
      (demo_mirror.scatter demo_env demo_ray (demo_hit ()) 0).1.scattered.direction
        ≠ reflect demo_ray.direction (demo_hit ()).normal := by
  refine ⟨rfl, by simp [demo_ray, vec3.ext_iff], demo_mirror_direction, demo_reflect, ?_⟩
  rw [demo_mirror_direction, demo_reflect]
  simp [vec3.ext_iff]

/-- Witness of C6 (amended): the mirror `demo_mirror` and the ray `demo_ray`. -/
theorem metal_scatter_mirror_witness :
    demo_mirror.fuzz = 0 ∧ demo_ray.direction ≠ ⟨0, 0, 0⟩ ∧
      (∀ x : ℚ, 0 < x → 0 < demo_env.sqrt x) ∧
      ((demo_mirror.scatter demo_env demo_ray (demo_hit ()) 0).1.scattered.origin
          = (demo_hit ()).p ∧
        (demo_mirror.scatter demo_env demo_ray (demo_hit ()) 0).1.scattered.direction
          = reflect (unit_vector demo_env demo_ray.direction) (demo_hit ()).normal ∧
        ((demo_mirror.scatter demo_env demo_ray (demo_hit ()) 0).1.ok = true
          ↔ 0 < dot (reflect demo_ray.direction (demo_hit ()).normal)
              (demo_hit ()).normal)) :=
  ⟨rfl, by simp [demo_ray, vec3.ext_iff], rat_sqrt_pos,
    metal_scatter_mirror demo_env demo_mirror demo_ray (demo_hit ()) 0 rfl
      (by simp [demo_ray, vec3.ext_iff]) rat_sqrt_pos⟩

/-- Witness of C8: the default configuration (defocus angle 0), pixel (3, 5). -/
theorem get_ray_origin_no_defocus_witness :
    camera.initialize demo_env demo_camera = some demo_camera_ready ∧
      demo_camera.defocus_angle ≤ 0 ∧
      ((demo_camera_ready.get_ray demo_env 3 5 1).1.origin = demo_camera_ready.center ∧
        demo_camera_ready.center = demo_camera.lookfrom ∧
        (demo_camera_ready.get_ray demo_env 3 5 1).2
          = (demo_env.random_double (demo_env.random_double 1).2).2 ∧
        ∀ disk : ℕ → vec3 ℚ × ℕ,
          demo_camera_ready.get_ray { demo_env with random_in_unit_disk := disk } 3 5 1
            = demo_camera_ready.get_ray demo_env 3 5 1) :=
  ⟨demo_camera_init, by norm_num [demo_camera],
    get_ray_origin_no_defocus demo_env demo_camera demo_camera_ready 3 5 1 demo_camera_init
      (by norm_num [demo_camera])⟩

/-- Counterexample to C9 as stated: with image width 2147483647 and the positive
aspect ratio 1/2 the quotient truncates to 4294967294, which no `int` holds: the
conversion is undefined and `initialize` yields no camera whose image height is
`max(1, trunc(quotient))`. -/
theorem initialize_image_height_counterexample :
    0 < demo_wide.aspect_ratio ∧
      trunc ((demo_wide.image_width : ℚ) / demo_wide.aspect_ratio) = 4294967294 ∧
      camera.initialize demo_env demo_wide = none ∧
      ¬ ∃ c, camera.initialize demo_env demo_wide = some c ∧
        c.image_height
          = max 1 (trunc ((demo_wide.image_width : ℚ) / demo_wide.aspect_ratio)) := by
  have hnone : camera.initialize demo_env demo_wide = none := by
    unfold camera.initialize static_cast_int
    rw [demo_wide_trunc]
    simp
  refine ⟨by norm_num [demo_wide], demo_wide_trunc, hnone, ?_⟩
  rintro ⟨c, hc, -⟩
  rw [hnone] at hc
  cases hc

/-- Witness of C9 (amended): the default configuration, width 100 and aspect 1. -/
theorem initialize_image_height_clamped_witness :
    0 < demo_camera.aspect_ratio ∧
      (-2147483648 ≤ trunc ((demo_camera.image_width : ℚ) / demo_camera.aspect_ratio) ∧
        trunc ((demo_camera.image_width : ℚ) / demo_camera.aspect_ratio) ≤ 2147483647) ∧
      ∃ c, camera.initialize demo_env demo_camera = some c ∧
        c.image_height
          = max 1 (trunc ((demo_camera.image_width : ℚ) / demo_camera.aspect_ratio)) ∧
        1 ≤ c.image_height ∧ (c.image_height : ℚ) ≠ 0 :=
  ⟨by norm_num [demo_camera], by rw [demo_trunc]; decide,
    initialize_image_height_clamped demo_env demo_camera (by norm_num [demo_camera])
      (by rw [demo_trunc]; decide)⟩

/-- Witness of C10: pixel (3, 5) of the initialized default camera with the draws
1/4 and 1/2. -/
theorem get_ray_target_witness :
    demo_env.random_double 1 = (1 / 4, 2) ∧ demo_env.random_double 2 = (1 / 2, 3) ∧
      ((0 : ℚ) ≤ 1 / 4 ∧ (1 / 4 : ℚ) < 1) ∧ ((0 : ℚ) ≤ 1 / 2 ∧ (1 / 2 : ℚ) < 1) ∧
      ((-(1 / 2) ≤ (1 / 4 : ℚ) - 1 / 2 ∧ (1 / 4 : ℚ) - 1 / 2 < 1 / 2) ∧
        (-(1 / 2) ≤ (1 / 2 : ℚ) - 1 / 2 ∧ (1 / 2 : ℚ) - 1 / 2 < 1 / 2) ∧
        (demo_camera_ready.get_ray demo_env 3 5 1).1.direction
          = demo_camera_ready.pixel_0
              + (((3 : Int) : ℚ) + (1 / 4 - 1 / 2)) • demo_camera_ready.pixel_delta_u
              + (((5 : Int) : ℚ) + (1 / 2 - 1 / 2)) • demo_camera_ready.pixel_delta_v
            - (demo_camera_ready.get_ray demo_env 3 5 1).1.origin) :=
  ⟨by norm_num [demo_env], by norm_num [demo_env], by norm_num, by norm_num,
    get_ray_target demo_env demo_camera_ready 3 5 1 2 3 (1 / 4) (1 / 2)
      (by norm_num [demo_env]) (by norm_num [demo_env]) (by norm_num) (by norm_num)⟩

end DemoLemmas

/-! ## Vector algebra -/

section Algebra

variable {F : Type} [LinearOrderedField F] {G : Type}

/-- The squared length of a vector divided by `t`. -/
theorem vec3.length_squared_div (v : vec3 F) (t : F) :
    (v.div t).length_squared = 1 / t * (1 / t) * v.length_squared := by
  simp only [vec3.length_squared, vec3.div_x, vec3.div_y, vec3.div_z]
  ring

/-- The squared length of a scaled vector. -/
theorem vec3.length_squared_smul (t : F) (v : vec3 F) :
    (t • v).length_squared = t * t * v.length_squared := by
  simp only [vec3.length_squared, vec3.smul_x, vec3.smul_y, vec3.smul_z]
  ring

/-- The squared length of the opposite vector. -/
theorem vec3.length_squared_neg (v : vec3 F) : (-v).length_squared = v.length_squared := by
  simp only [vec3.length_squared, vec3.neg_x, vec3.neg_y, vec3.neg_z]
  ring

/-- The vector product is perpendicular to its first factor. -/
theorem dot_cross_left (a b : vec3 F) : dot (cross a b) a = 0 := by
  simp only [dot, cross]
  ring

/-- The vector product is perpendicular to its second factor. -/
theorem dot_cross_right (a b : vec3 F) : dot (cross a b) b = 0 := by
  simp only [dot, cross]
  ring

/-- The scalar product is symmetric. -/
theorem dot_comm (a b : vec3 F) : dot a b = dot b a := by
  simp only [dot]
  ring

/-- The scalar product with a divided vector. -/
theorem dot_div_left (v w : vec3 F) (t : F) : dot (v.div t) w = 1 / t * dot v w := by
  simp only [dot, vec3.div_x, vec3.div_y, vec3.div_z]
  ring

/-- The scalar product with a scaled vector. -/
theorem dot_smul_left (t : F) (v w : vec3 F) : dot (t • v) w = t * dot v w := by
  simp only [dot, vec3.smul_x, vec3.smul_y, vec3.smul_z]
  ring

/-- The vector product with a divided second factor. -/
theorem cross_div_right (a b : vec3 F) (t : F) : cross a (b.div t) = (cross a b).div t := by
  ext <;> simp [cross] <;> ring

/-- The identity of Lagrange for the squared length of a vector product. -/
theorem cross_length_squared (a b : vec3 F) :
    (cross a b).length_squared = a.length_squared * b.length_squared - dot a b * dot a b := by
  simp only [vec3.length_squared, dot, cross]
  ring

/-- A vector is zero when its squared length is zero. -/
theorem vec3.eq_zero_of_length_squared (v : vec3 F) (h : v.length_squared = 0) :
    v = ⟨0, 0, 0⟩ := by
  by_contra hne
  have := vec3.length_squared_pos v hne
  rw [h] at this
  exact lt_irrefl 0 this

/-- An exact square root of a positive number is positive. -/
theorem exact_sqrt_pos (E : Env F G) (x : F) (hx : 0 < x) (h : exact_sqrt E x) :
    0 < E.sqrt x := by
  rcases h.1.lt_or_eq with hlt | heq
  · exact hlt
  · exfalso
    have h2 := h.2
    rw [← heq] at h2
    simp at h2
    rw [← h2] at hx
    exact lt_irrefl 0 hx

/-- Dividing a non-zero vector by the exact square root of its squared length gives a
vector of squared length 1. -/
theorem unit_vector_length_squared (E : Env F G) (v : vec3 F) (hv : v ≠ ⟨0, 0, 0⟩)
    (hs : exact_sqrt E v.length_squared) : (unit_vector E v).length_squared = 1 := by
  have hL := vec3.length_squared_pos v hv
  have hpos := exact_sqrt_pos E _ hL hs
  have hne : E.sqrt v.length_squared ≠ 0 := ne_of_gt hpos
  rw [unit_vector, vec3.length, vec3.length_squared_div]
  nth_rewrite 3 [← hs.2]
  field_simp

/-- The exact square root of 1 is 1. -/
theorem exact_sqrt_one (E : Env F G) (h : exact_sqrt E (1 : F)) : E.sqrt 1 = 1 := by
  have hpos := exact_sqrt_pos E 1 one_pos h
  have h2 := h.2
  have : (E.sqrt 1 - 1) * (E.sqrt 1 + 1) = 0 := by ring_nf; rw [pow_two, h2]; ring
  rcases mul_eq_zero.mp this with h3 | h3
  · linarith
  · linarith

end Algebra

/-! ## The geometry that `initialize` sets up -/

section Geometry

variable {F : Type} [LinearOrderedField F] [FloorRing F] {G : Type}

/-- The private fields after `initialize`, in terms of the configuration. -/
theorem camera.initialize_geometry (E : Env F G) (c0 c : camera F)
    (hinit : camera.initialize E c0 = some c) :
    c.w = unit_vector E (c0.lookfrom - c0.lookat) ∧
      c.u = unit_vector E (cross c0.vup c.w) ∧
      c.v = cross c.w c.u ∧
      c.pixel_delta_u
        = ((viewport_height E c0 * ((c0.image_width : F) / (c.image_height : F))) • c.u).div
            (c0.image_width : F) ∧
      c.pixel_delta_v = (viewport_height E c0 • (-c.v)).div (c.image_height : F) ∧
      c.pixel_0
        = c.center - (c0.focus_dist • c.w)
          + (c.pixel_delta_u + c.pixel_delta_v - viewport_height E c0 • (-c.v)
              - (viewport_height E c0 * ((c0.image_width : F) / (c.image_height : F))) • c.u).div
            2 ∧
      c.defocus_disk_u
        = (c0.focus_dist * E.tan (E.deg_to_rad (c0.defocus_angle / 2))) • c.u ∧
      c.defocus_disk_v
        = (c0.focus_dist * E.tan (E.deg_to_rad (c0.defocus_angle / 2))) • c.v ∧
      c.focus_dist = c0.focus_dist ∧ 1 ≤ c.image_height := by
  unfold camera.initialize at hinit
  split at hinit
  · cases hinit
  · rename_i k hk
    cases hinit
    refine ⟨rfl, rfl, rfl, rfl, rfl, rfl, rfl, rfl, rfl, ?_⟩
    show 1 ≤ (if k ≥ 1 then k else 1)
    split <;> omega

/-- The basis that `initialize` computes is perpendicular to the view direction `w`
by construction, whatever `sqrt` returns. -/
theorem camera.initialize_perp (E : Env F G) (c0 c : camera F)
    (hinit : camera.initialize E c0 = some c) :
    dot c.u c.w = 0 ∧ dot c.v c.w = 0 ∧ dot c.u c.v = 0 ∧
      c.v.length_squared = c.w.length_squared * c.u.length_squared := by
  obtain ⟨-, hu, hv, -⟩ := camera.initialize_geometry E c0 c hinit
  have huw : dot c.u c.w = 0 := by
    rw [hu, unit_vector, dot_div_left, dot_cross_right, mul_zero]
  have hwu : dot c.w c.u = 0 := by rw [dot_comm]; exact huw
  refine ⟨huw, ?_, ?_, ?_⟩
  · rw [hv, dot_cross_left]
  · rw [hv, dot_comm, dot_cross_right]
  · rw [hv, cross_length_squared, hwu]
    ring

/-- C11: for `lookfrom ≠ lookat` and `vup` not parallel to `lookfrom - lookat`, the basis
`w = unit(lookfrom - lookat)`, `u = unit(cross(vup, w))`, `v = cross(w, u)` that
`initialize` computes is orthonormal: `u`, `v`, `w` have length 1 and are pairwise
perpendicular; `v` is of unit length without being normalised.  The square root is
assumed exact at the three numbers it is applied to. -/
theorem initialize_orthonormal_basis (E : Env F G) (c0 c : camera F)
    (hinit : camera.initialize E c0 = some c)
    (hne : c0.lookfrom ≠ c0.lookat)
    (hpar : cross c0.vup (c0.lookfrom - c0.lookat) ≠ ⟨0, 0, 0⟩)
    (hs1 : exact_sqrt E (c0.lookfrom - c0.lookat).length_squared)
    (hs2 : exact_sqrt E
      (cross c0.vup (unit_vector E (c0.lookfrom - c0.lookat))).length_squared)
    (hs3 : exact_sqrt E (1 : F)) :
    (c.w = unit_vector E (c0.lookfrom - c0.lookat) ∧
        c.u = unit_vector E (cross c0.vup c.w) ∧ c.v = cross c.w c.u) ∧
      orthonormal c.u c.v c.w ∧
      c.u.length E = 1 ∧ c.v.length E = 1 ∧ c.w.length E = 1 := by
  obtain ⟨hw, hu, hv, -⟩ := camera.initialize_geometry E c0 c hinit
  obtain ⟨huw, hvw, huv, hvlen⟩ := camera.initialize_perp E c0 c hinit
  have hd : c0.lookfrom - c0.lookat ≠ ⟨0, 0, 0⟩ := by
    intro h0
    apply hne
    have hx := congrArg vec3.x h0
    have hy := congrArg vec3.y h0
    have hz := congrArg vec3.z h0
    simp only [vec3.sub_x, vec3.sub_y, vec3.sub_z] at hx hy hz
    ext
    · exact sub_eq_zero.mp hx
    · exact sub_eq_zero.mp hy
    · exact sub_eq_zero.mp hz
  have hwl : c.w.length_squared = 1 := by
    rw [hw]; exact unit_vector_length_squared E _ hd hs1
  have hspos := exact_sqrt_pos E _ (vec3.length_squared_pos _ hd) hs1
  have hcross : cross c0.vup (unit_vector E (c0.lookfrom - c0.lookat)) ≠ ⟨0, 0, 0⟩ := by
    intro h0
    apply hpar
    rw [unit_vector, vec3.length, cross_div_right] at h0
    have hx := congrArg vec3.x h0
    have hy := congrArg vec3.y h0
    have hz := congrArg vec3.z h0
    simp only [vec3.div_x, vec3.div_y, vec3.div_z] at hx hy hz
    have hinv : (1 : F) / E.sqrt (c0.lookfrom - c0.lookat).length_squared ≠ 0 :=
      ne_of_gt (one_div_pos.mpr hspos)
    ext
    · exact (mul_eq_zero.mp hx).resolve_left hinv
    · exact (mul_eq_zero.mp hy).resolve_left hinv
    · exact (mul_eq_zero.mp hz).resolve_left hinv
  have hul : c.u.length_squared = 1 := by
    rw [hu, hw]; exact unit_vector_length_squared E _ hcross hs2
  have hvl : c.v.length_squared = 1 := by rw [hvlen, hwl, hul, mul_one]
  have h1 := exact_sqrt_one E hs3
  refine ⟨⟨hw, hu, hv⟩, ⟨hul, hvl, hwl, huv, hvw, huw⟩, ?_, ?_, ?_⟩
  · rw [vec3.length, hul, h1]
  · rw [vec3.length, hvl, h1]
  · rw [vec3.length, hwl, h1]

/-- The pixel steps after `initialize`, when the image width is not zero: both are the
same multiple, up to sign, of `u` and of `v`. -/
theorem camera.initialize_deltas (E : Env F G) (c0 c : camera F)
    (hinit : camera.initialize E c0 = some c) (hw : 1 ≤ c0.image_width) :
    c.pixel_delta_u = (viewport_height E c0 / (c.image_height : F)) • c.u ∧
      c.pixel_delta_v = (-(viewport_height E c0 / (c.image_height : F))) • c.v ∧
      (c0.image_width : F) • c.pixel_delta_u = viewport_u E c0 c ∧
      (c.image_height : F) • c.pixel_delta_v = viewport_v E c0 c := by
  obtain ⟨-, -, -, hdu, hdv, -, -, -, -, hh⟩ := camera.initialize_geometry E c0 c hinit
  have hW : (c0.image_width : F) ≠ 0 := by
    have : (0 : F) < (c0.image_width : F) := by exact_mod_cast (by omega : 0 < c0.image_width)
    exact ne_of_gt this
  have hH : (c.image_height : F) ≠ 0 := by
    have : (0 : F) < (c.image_height : F) := by exact_mod_cast (by omega : 0 < c.image_height)
    exact ne_of_gt this
  refine ⟨?_, ?_, ?_, ?_⟩
  · rw [hdu]
    ext <;> simp <;> field_simp <;> ring
  · rw [hdv]
    ext <;> simp <;> field_simp
  · rw [hdu, viewport_u]
    ext <;> simp <;> field_simp <;> ring
  · rw [hdv, viewport_v]
    ext <;> simp <;> field_simp

/-- C12: `initialize` takes the viewport width from the integer image dimensions:
`viewport_u = image_width * pixel_delta_u` is
`viewport_height * (image_width / image_height) * u`, the configured aspect ratio
does not occur.  Hence, for `image_width ≥ 1`,
`pixel_delta_u = (viewport_height / image_height) * u` and
`pixel_delta_v = -(viewport_height / image_height) * v`, and the two pixel steps have
the same length (square pixels).  The square root is assumed exact at the squared
length of `lookfrom - lookat`. -/
theorem initialize_square_pixels (E : Env F G) (c0 c : camera F)
    (hinit : camera.initialize E c0 = some c) (hw : 1 ≤ c0.image_width)
    (hs1 : exact_sqrt E (c0.lookfrom - c0.lookat).length_squared) :
    (c0.image_width : F) • c.pixel_delta_u
        = (viewport_height E c0 * ((c0.image_width : F) / (c.image_height : F))) • c.u ∧
      c.pixel_delta_u = (viewport_height E c0 / (c.image_height : F)) • c.u ∧
      c.pixel_delta_v = (-(viewport_height E c0 / (c.image_height : F))) • c.v ∧
      c.pixel_delta_u.length_squared = c.pixel_delta_v.length_squared ∧
      c.pixel_delta_u.length E = c.pixel_delta_v.length E := by
  obtain ⟨hdu, hdv, hvu, -⟩ := camera.initialize_deltas E c0 c hinit hw
  obtain ⟨hwdef, hudef, -⟩ := camera.initialize_geometry E c0 c hinit
  obtain ⟨-, -, -, hvlen⟩ := camera.initialize_perp E c0 c hinit
  have huv : c.u.length_squared = c.v.length_squared := by
    by_cases hd : c0.lookfrom - c0.lookat = ⟨0, 0, 0⟩
    · have hw0 : c.w = ⟨0, 0, 0⟩ := by
        rw [hwdef, hd]
        ext <;> simp [unit_vector]
      have hu0 : c.u = ⟨0, 0, 0⟩ := by
        rw [hudef, hw0]
        ext <;> simp [unit_vector, cross]
      rw [hvlen, hw0, hu0]
      simp [vec3.length_squared]
    · have hwl : c.w.length_squared = 1 := by
        rw [hwdef]; exact unit_vector_length_squared E _ hd hs1
      rw [hvlen, hwl, one_mul]
  have hlen : c.pixel_delta_u.length_squared = c.pixel_delta_v.length_squared := by
    rw [hdu, hdv, vec3.length_squared_smul, vec3.length_squared_smul, huv]
    ring
  refine ⟨hvu, hdu, hdv, hlen, ?_⟩
  rw [vec3.length, vec3.length, hlen]

/-- C13: after `initialize` with `image_width ≥ 1`, `pixel_0` is the upper-left corner of
the viewport plus half a pixel step in each axis; the centre of the last pixel
`(image_width - 1, image_height - 1)` is the lower-right corner
`upper_left + viewport_u + viewport_v` minus half a pixel step in each axis; and the
point midway between these two pixel centres is `center - focus_dist * w`. -/
theorem initialize_pixel_grid_centred (E : Env F G) (c0 c : camera F)
    (hinit : camera.initialize E c0 = some c) (hw : 1 ≤ c0.image_width) :
    c.pixel_0
        = viewport_upper_left E c0 c + (c.pixel_delta_u + c.pixel_delta_v).div 2 ∧
      c.pixel_center 0 0 = c.pixel_0 ∧
      c.pixel_center (c0.image_width - 1) (c.image_height - 1)
        = viewport_upper_left E c0 c + viewport_u E c0 c + viewport_v E c0 c
          - (c.pixel_delta_u + c.pixel_delta_v).div 2 ∧
      (c.pixel_center 0 0
          + c.pixel_center (c0.image_width - 1) (c.image_height - 1)).div 2
        = c.center - (c0.focus_dist • c.w) := by
  obtain ⟨-, -, hvu, hvv⟩ := camera.initialize_deltas E c0 c hinit hw
  obtain ⟨-, -, -, -, -, hp0, -⟩ := camera.initialize_geometry E c0 c hinit
  have hp : c.pixel_0
      = viewport_upper_left E c0 c + (c.pixel_delta_u + c.pixel_delta_v).div 2 := by
    rw [hp0, viewport_upper_left, viewport_u, viewport_v]
    ext <;> simp <;> ring
  have h00 : c.pixel_center 0 0 = c.pixel_0 := by
    ext <;> simp [camera.pixel_center]
  have hlast : c.pixel_center (c0.image_width - 1) (c.image_height - 1)
      = viewport_upper_left E c0 c + viewport_u E c0 c + viewport_v E c0 c
        - (c.pixel_delta_u + c.pixel_delta_v).div 2 := by
    rw [camera.pixel_center, hp, ← hvu, ← hvv]
    ext <;> simp <;> ring
  refine ⟨hp, h00, hlast, ?_⟩
  rw [h00, hlast, hp, viewport_upper_left]
  ext <;> simp <;> ring

/-- C20: for an initialized camera with an orthonormal basis, the ray of `get_ray`
satisfies `origin + direction = pixel_sample`, where `pixel_sample` is the pixel
centre plus the jitter and does not depend on the lens sampler, and
`pixel_sample` lies in the focus plane `dot(P - center, w) = -focus_dist`; there is
no condition on `defocus_angle`. -/
theorem get_ray_through_focus_plane (E : Env F G) (c0 c : camera F)
    (hinit : camera.initialize E c0 = some c) (hon : orthonormal c.u c.v c.w)
    (i j : Int) (g : G) :
    (c.get_ray E i j g).1.origin + (c.get_ray E i j g).1.direction
        = c.pixel_center i j + (c.pixel_sample_square E g).1 ∧
      (∀ disk : G → vec3 F × G,
        (c.get_ray { E with random_in_unit_disk := disk } i j g).1.origin
          + (c.get_ray { E with random_in_unit_disk := disk } i j g).1.direction
          = c.pixel_center i j + (c.pixel_sample_square E g).1) ∧
      dot (c.pixel_center i j + (c.pixel_sample_square E g).1 - c.center) c.w
        = -c0.focus_dist := by
  obtain ⟨-, -, hwl, -, hvw, huw⟩ := hon
  obtain ⟨-, -, -, hdu, hdv, hp0, -⟩ := camera.initialize_geometry E c0 c hinit
  refine ⟨?_, ?_, ?_⟩
  · simp only [camera.get_ray, camera.pixel_center]
    ext <;> simp
  · intro disk
    simp only [camera.get_ray, camera.pixel_center, camera.pixel_sample_square]
    ext <;> simp
  · simp only [camera.pixel_center, camera.pixel_sample_square]
    rw [hp0, hdu, hdv]
    simp only [dot, vec3.length_squared] at hwl hvw huw ⊢
    simp only [vec3.add_x, vec3.add_y, vec3.add_z, vec3.sub_x, vec3.sub_y, vec3.sub_z,
      vec3.smul_x, vec3.smul_y, vec3.smul_z, vec3.div_x, vec3.div_y, vec3.div_z,
      vec3.neg_x, vec3.neg_y, vec3.neg_z]
    linear_combination (-c0.focus_dist) * hwl
      + (1 / 2 * (1 / (c0.image_width : F)
            * (viewport_height E c0 * ((c0.image_width : F) / (c.image_height : F))))
          - 1 / 2 * (viewport_height E c0 * ((c0.image_width : F) / (c.image_height : F)))
          + ((i : F) + (-(1 / 2) + (E.random_double g).1)) * (1 / (c0.image_width : F)
            * (viewport_height E c0 * ((c0.image_width : F) / (c.image_height : F))))) * huw
      + (-(1 / 2 * (1 / (c.image_height : F) * viewport_height E c0))
          + 1 / 2 * viewport_height E c0
          - ((j : F) + (-(1 / 2) + (E.random_double (E.random_double g).2).1))
            * (1 / (c.image_height : F) * viewport_height E c0)) * hvw

end Geometry

/-! ## The geometry at the concrete inputs -/

section GeometryDemo

/-- The rational square root of 25. -/
theorem rat_sqrt_25 : rat_sqrt 25 = 5 := by
  have h : (25 : ℚ).num.toNat = 25 := rfl
  have h1 : (25 : ℚ).den = 1 := rfl
  rw [rat_sqrt, h, h1]
  norm_num [Nat.sqrt, Nat.sqrt.iter]

/-- The rational square root of 16/25. -/
theorem rat_sqrt_16_25 : rat_sqrt (16 / 25) = 4 / 5 := by
  have h : ((16 : ℚ) / 25).num = 16 := by norm_num
  have h1 : ((16 : ℚ) / 25).den = 25 := by norm_num
  have h2 : (16 : ℤ).toNat = 4 * 4 := rfl
  have h3 : (25 : ℕ) = 5 * 5 := rfl
  rw [rat_sqrt, h, h1, h2, h3, Nat.sqrt_eq, Nat.sqrt_eq]
  norm_num

/-- The square root of `demo_env` is exact where `rat_sqrt` returns a root. -/
theorem demo_exact_sqrt (x s : ℚ) (h : rat_sqrt x = s) (hs : 0 ≤ s) (hx : s * s = x) :
    exact_sqrt demo_env x := by
  have hd : demo_env.sqrt x = s := h
  unfold exact_sqrt
  rw [hd]
  exact ⟨hs, hx⟩

/-- The squared length of the view vector of the default configuration. -/
theorem demo_camera_len : (demo_camera.lookfrom - demo_camera.lookat).length_squared = 1 := by
  norm_num [demo_camera, vec3.length_squared]

/-- The squared length of the view vector of `demo_tilted`. -/
theorem demo_tilted_len : (demo_tilted.lookfrom - demo_tilted.lookat).length_squared = 25 := by
  norm_num [demo_tilted, demo_camera, vec3.length_squared]

/-- The squared length of `cross(vup, w)` for `demo_tilted`. -/
theorem demo_tilted_cross_len :
    (cross demo_tilted.vup
      (unit_vector demo_env (demo_tilted.lookfrom - demo_tilted.lookat))).length_squared
      = 16 / 25 := by
  have h : demo_env.sqrt 25 = 5 := rat_sqrt_25
  rw [unit_vector, vec3.length, demo_tilted_len, h]
  norm_num [demo_tilted, demo_camera, vec3.length_squared, cross]

/-- The quotient of `demo_tilted` truncates to 100. -/
theorem demo_tilted_trunc :
    trunc ((demo_tilted.image_width : ℚ) / demo_tilted.aspect_ratio) = 100 := by
  norm_num [trunc, demo_tilted, demo_camera]

/-- The quotient of `demo_camera_169` truncates to 56. -/
theorem demo_camera_169_trunc :
    trunc ((demo_camera_169.image_width : ℚ) / demo_camera_169.aspect_ratio) = 56 := by
  norm_num [trunc, demo_camera_169, demo_camera]

/-- Running `initialize` on the configuration with a lens. -/
theorem demo_lens_init : camera.initialize demo_env demo_lens = some demo_lens_ready := by
  have ht : trunc ((demo_lens.image_width : ℚ) / demo_lens.aspect_ratio) = 100 := by
    norm_num [trunc, demo_lens, demo_camera]
  unfold camera.initialize
  rw [static_cast_int_eq_some _ (by rw [ht]; decide), ht]
  simp only [demo_lens, demo_lens_ready, demo_camera, demo_camera_ready, demo_env, unit_vector,
    vec3.length, vec3.length_squared, cross]
  norm_num [rat_sqrt_one, vec3.ext_iff]

/-- Witness of C11: the configuration that looks from `(0, 3, 4)` to the origin. -/
theorem initialize_orthonormal_basis_witness :
    ∃ c, camera.initialize demo_env demo_tilted = some c ∧
      demo_tilted.lookfrom ≠ demo_tilted.lookat ∧
      cross demo_tilted.vup (demo_tilted.lookfrom - demo_tilted.lookat) ≠ ⟨0, 0, 0⟩ ∧
      exact_sqrt demo_env (demo_tilted.lookfrom - demo_tilted.lookat).length_squared ∧
      exact_sqrt demo_env
        (cross demo_tilted.vup
          (unit_vector demo_env (demo_tilted.lookfrom - demo_tilted.lookat))).length_squared ∧
      exact_sqrt demo_env (1 : ℚ) ∧
      ((c.w = unit_vector demo_env (demo_tilted.lookfrom - demo_tilted.lookat) ∧
          c.u = unit_vector demo_env (cross demo_tilted.vup c.w) ∧ c.v = cross c.w c.u) ∧
        orthonormal c.u c.v c.w ∧
        c.u.length demo_env = 1 ∧ c.v.length demo_env = 1 ∧ c.w.length demo_env = 1) := by
  obtain ⟨c, hc⟩ := camera.initialize_isSome demo_env demo_tilted
    (by rw [demo_tilted_trunc]; decide)
  have hne : demo_tilted.lookfrom ≠ demo_tilted.lookat := by
    simp [demo_tilted, vec3.ext_iff]
  have hpar : cross demo_tilted.vup (demo_tilted.lookfrom - demo_tilted.lookat)
      ≠ ⟨0, 0, 0⟩ := by
    simp [demo_tilted, demo_camera, cross, vec3.ext_iff]
  have hs1 : exact_sqrt demo_env (demo_tilted.lookfrom - demo_tilted.lookat).length_squared := by
    rw [demo_tilted_len]
    exact demo_exact_sqrt 25 5 rat_sqrt_25 (by norm_num) (by norm_num)
  have hs2 : exact_sqrt demo_env
      (cross demo_tilted.vup
        (unit_vector demo_env (demo_tilted.lookfrom - demo_tilted.lookat))).length_squared := by
    rw [demo_tilted_cross_len]
    exact demo_exact_sqrt (16 / 25) (4 / 5) rat_sqrt_16_25 (by norm_num) (by norm_num)
  have hs3 : exact_sqrt demo_env (1 : ℚ) :=
    demo_exact_sqrt 1 1 rat_sqrt_one (by norm_num) (by norm_num)
  exact ⟨c, hc, hne, hpar, hs1, hs2, hs3,
    initialize_orthonormal_basis demo_env demo_tilted c hc hne hpar hs1 hs2 hs3⟩

/-- Witness of C12: width 100 and aspect ratio 16/9 give height 56, so that
`image_width / image_height` differs from the aspect ratio. -/
theorem initialize_square_pixels_witness :
    ∃ c, camera.initialize demo_env demo_camera_169 = some c ∧
      c.image_height = 56 ∧
      (demo_camera_169.image_width : ℚ) / 56 ≠ demo_camera_169.aspect_ratio ∧
      1 ≤ demo_camera_169.image_width ∧
      exact_sqrt demo_env
        (demo_camera_169.lookfrom - demo_camera_169.lookat).length_squared ∧
      ((demo_camera_169.image_width : ℚ) • c.pixel_delta_u
          = (viewport_height demo_env demo_camera_169
              * ((demo_camera_169.image_width : ℚ) / (c.image_height : ℚ))) • c.u ∧
        c.pixel_delta_u
          = (viewport_height demo_env demo_camera_169 / (c.image_height : ℚ)) • c.u ∧
        c.pixel_delta_v
          = (-(viewport_height demo_env demo_camera_169 / (c.image_height : ℚ))) • c.v ∧
        c.pixel_delta_u.length_squared = c.pixel_delta_v.length_squared ∧
        c.pixel_delta_u.length demo_env = c.pixel_delta_v.length demo_env) := by
  obtain ⟨c, hc⟩ := camera.initialize_isSome demo_env demo_camera_169
    (by rw [demo_camera_169_trunc]; decide)
  have hh : c.image_height = 56 := by
    rw [camera.initialize_image_height demo_env demo_camera_169 c hc, demo_camera_169_trunc]
    decide
  have hw : 1 ≤ demo_camera_169.image_width := by decide
  have hs1 : exact_sqrt demo_env
      (demo_camera_169.lookfrom - demo_camera_169.lookat).length_squared := by
    have : (demo_camera_169.lookfrom - demo_camera_169.lookat).length_squared = 1 :=
      demo_camera_len
    rw [this]
    exact demo_exact_sqrt 1 1 rat_sqrt_one (by norm_num) (by norm_num)
  exact ⟨c, hc, hh, by norm_num [demo_camera_169, demo_camera], hw, hs1,
    initialize_square_pixels demo_env demo_camera_169 c hc hw hs1⟩

/-- Witness of C13: the default configuration, 100 by 100 pixels. -/
theorem initialize_pixel_grid_centred_witness :
    camera.initialize demo_env demo_camera = some demo_camera_ready ∧
      1 ≤ demo_camera.image_width ∧
      (demo_camera_ready.pixel_0
          = viewport_upper_left demo_env demo_camera demo_camera_ready
            + (demo_camera_ready.pixel_delta_u + demo_camera_ready.pixel_delta_v).div 2 ∧
        demo_camera_ready.pixel_center 0 0 = demo_camera_ready.pixel_0 ∧
        demo_camera_ready.pixel_center (demo_camera.image_width - 1)
            (demo_camera_ready.image_height - 1)
          = viewport_upper_left demo_env demo_camera demo_camera_ready
            + viewport_u demo_env demo_camera demo_camera_ready
            + viewport_v demo_env demo_camera demo_camera_ready
            - (demo_camera_ready.pixel_delta_u + demo_camera_ready.pixel_delta_v).div 2 ∧
        (demo_camera_ready.pixel_center 0 0
            + demo_camera_ready.pixel_center (demo_camera.image_width - 1)
                (demo_camera_ready.image_height - 1)).div 2
          = demo_camera_ready.center - (demo_camera.focus_dist • demo_camera_ready.w)) :=
  ⟨demo_camera_init, by decide,
    initialize_pixel_grid_centred demo_env demo_camera demo_camera_ready demo_camera_init
      (by decide)⟩

/-- The basis of the initialized lens camera is orthonormal. -/
theorem demo_lens_orthonormal :
    orthonormal demo_lens_ready.u demo_lens_ready.v demo_lens_ready.w := by
  norm_num [orthonormal, demo_lens_ready, demo_camera_ready, vec3.length_squared, dot]

/-- Witness of C20: the camera with a lens (defocus angle 2), pixel (3, 5). -/
theorem get_ray_through_focus_plane_witness :
    camera.initialize demo_env demo_lens = some demo_lens_ready ∧
      orthonormal demo_lens_ready.u demo_lens_ready.v demo_lens_ready.w ∧
      0 < demo_lens_ready.defocus_angle ∧
      ((demo_lens_ready.get_ray demo_env 3 5 1).1.origin
          + (demo_lens_ready.get_ray demo_env 3 5 1).1.direction
          = demo_lens_ready.pixel_center 3 5
            + (demo_lens_ready.pixel_sample_square demo_env 1).1 ∧
        (∀ disk : ℕ → vec3 ℚ × ℕ,
          (demo_lens_ready.get_ray { demo_env with random_in_unit_disk := disk } 3 5 1).1.origin
            + (demo_lens_ready.get_ray
                { demo_env with random_in_unit_disk := disk } 3 5 1).1.direction
            = demo_lens_ready.pixel_center 3 5
              + (demo_lens_ready.pixel_sample_square demo_env 1).1) ∧
        dot (demo_lens_ready.pixel_center 3 5
              + (demo_lens_ready.pixel_sample_square demo_env 1).1 - demo_lens_ready.center)
            demo_lens_ready.w
          = -demo_lens.focus_dist) :=
  ⟨demo_lens_init, demo_lens_orthonormal, by norm_num [demo_lens_ready],
    get_ray_through_focus_plane demo_env demo_lens demo_lens_ready demo_lens_init
      demo_lens_orthonormal 3 5 1⟩

end GeometryDemo

/-! ## The recursion of `ray_color` -/

section Recursion

variable {F : Type} [LinearOrderedField F] {G M : Type}

/-- Induction on the depth: a property that holds at every depth `≤ 0`, and at a
positive depth whenever it holds one below, holds at every depth. -/
theorem depth_induction (P : Int → Prop) (h0 : ∀ d, d ≤ 0 → P d)
    (hstep : ∀ d, 0 < d → P (d - 1) → P d) : ∀ d, P d := by
  have hnat : ∀ n : ℕ, P (n : Int) := by
    intro n
    induction n with
    | zero => exact h0 _ (by simp)
    | succ k ih =>
      apply hstep
      · push_cast; omega
      · have hk : ((k + 1 : ℕ) : Int) - 1 = (k : Int) := by push_cast; ring
        rw [hk]
        exact ih
  intro d
  by_cases h : d ≤ 0
  · exact h0 d h
  · obtain ⟨n, hn⟩ := Int.eq_ofNat_of_zero_le (by omega : 0 ≤ d)
    rw [hn]
    exact hnat n

/-- The body of `ray_color` at a depth `≤ 0`. -/
theorem camera.ray_color_nonpos (E : Env F G) (ops : material_ops F M G) (c : camera F)
    (world : hittable F M) (r : ray F) (depth : Int) (g : G) (h : depth ≤ 0) :
    c.ray_color E ops world r depth g = ⟨⟨0, 0, 0⟩, g, 1, 0, 0⟩ := by
  rw [camera.ray_color, if_pos h]

/-- The body of `ray_color` at a positive depth. -/
theorem camera.ray_color_pos (E : Env F G) (ops : material_ops F M G) (c : camera F)
    (world : hittable F M) (r : ray F) (depth : Int) (g : G) (h : 0 < depth) :
    c.ray_color E ops world r depth g =
      match world.hit r ⟨1 / 1000, E.infinity⟩ with
      | none => ⟨c.background, g, 1, 1, 0⟩
      | some rec =>
        if (ops.scatter rec.mat r rec g).1.ok then
          ⟨ops.emitted rec.mat + (ops.scatter rec.mat r rec g).1.attenuation
              * (c.ray_color E ops world (ops.scatter rec.mat r rec g).1.scattered
                  (depth - 1) (ops.scatter rec.mat r rec g).2).color,
            (c.ray_color E ops world (ops.scatter rec.mat r rec g).1.scattered
                  (depth - 1) (ops.scatter rec.mat r rec g).2).rng,
            (c.ray_color E ops world (ops.scatter rec.mat r rec g).1.scattered
                  (depth - 1) (ops.scatter rec.mat r rec g).2).calls + 1,
            (c.ray_color E ops world (ops.scatter rec.mat r rec g).1.scattered
                  (depth - 1) (ops.scatter rec.mat r rec g).2).hits + 1,
            (c.ray_color E ops world (ops.scatter rec.mat r rec g).1.scattered
                  (depth - 1) (ops.scatter rec.mat r rec g).2).scatters + 1⟩
        else
          ⟨ops.emitted rec.mat, (ops.scatter rec.mat r rec g).2, 1, 1, 1⟩ := by
  have hd : ¬ depth ≤ 0 := by omega
  rw [camera.ray_color, if_neg hd]

/-- The body of the iterative integrator at a positive depth. -/
theorem ray_color_loop_pos (E : Env F G) (ops : material_ops F M G) (c : camera F)
    (world : hittable F M) (acc thr : color F) (r : ray F) (depth : Int) (g : G)
    (h : 0 < depth) :
    ray_color_loop E ops c world acc thr r depth g =
      match world.hit r ⟨1 / 1000, E.infinity⟩ with
      | none => (acc + thr * c.background, g)
      | some rec =>
        if (ops.scatter rec.mat r rec g).1.ok then
          ray_color_loop E ops c world (acc + thr * ops.emitted rec.mat)
            (thr * (ops.scatter rec.mat r rec g).1.attenuation)
            (ops.scatter rec.mat r rec g).1.scattered (depth - 1)
            (ops.scatter rec.mat r rec g).2
        else
          (acc + thr * ops.emitted rec.mat, (ops.scatter rec.mat r rec g).2) := by
  have hd : ¬ depth ≤ 0 := by omega
  rw [ray_color_loop, if_neg hd]

/-- The counters of `ray_color` are bounded by the depth. -/
theorem camera.ray_color_counts (E : Env F G) (ops : material_ops F M G) (c : camera F)
    (world : hittable F M) (depth : Int) :
    ∀ (r : ray F) (g : G),
      (c.ray_color E ops world r depth g).hits ≤ depth.toNat ∧
        (c.ray_color E ops world r depth g).scatters ≤ depth.toNat ∧
        (c.ray_color E ops world r depth g).calls ≤ depth.toNat + 1 ∧
        1 ≤ (c.ray_color E ops world r depth g).calls := by
  refine depth_induction
    (fun d => ∀ (r : ray F) (g : G),
      (c.ray_color E ops world r d g).hits ≤ d.toNat ∧
        (c.ray_color E ops world r d g).scatters ≤ d.toNat ∧
        (c.ray_color E ops world r d g).calls ≤ d.toNat + 1 ∧
        1 ≤ (c.ray_color E ops world r d g).calls) ?_ ?_ depth
  · intro d hd r g
    rw [camera.ray_color_nonpos E ops c world r d g hd]
    simp
  · intro d hd ih r g
    rw [camera.ray_color_pos E ops c world r d g hd]
    have hd1 : 1 ≤ d.toNat := by omega
    have hd2 : (d - 1).toNat + 1 = d.toNat := by omega
    cases hh : world.hit r ⟨1 / 1000, E.infinity⟩ with
    | none => simp only []; omega
    | some rec =>
      simp only []
      split
      · obtain ⟨h1, h2, h3, h4⟩ := ih (ops.scatter rec.mat r rec g).1.scattered
          (ops.scatter rec.mat r rec g).2
        simp only []
        omega
      · simp only []
        omega

/-- The product of a colour with black, added to black, is black. -/
theorem vec3.zero_add_mul_zero (a : vec3 F) :
    (⟨0, 0, 0⟩ : vec3 F) + a * ⟨0, 0, 0⟩ = ⟨0, 0, 0⟩ := by
  ext <;> simp

/-- With a black background and materials that emit black, `ray_color` is black. -/
theorem camera.ray_color_black (E : Env F G) (ops : material_ops F M G) (c : camera F)
    (world : hittable F M) (hbg : c.background = ⟨0, 0, 0⟩)
    (hem : ∀ m, ops.emitted m = ⟨0, 0, 0⟩) (depth : Int) :
    ∀ (r : ray F) (g : G), (c.ray_color E ops world r depth g).color = ⟨0, 0, 0⟩ := by
  refine depth_induction
    (fun d => ∀ (r : ray F) (g : G), (c.ray_color E ops world r d g).color = ⟨0, 0, 0⟩)
    ?_ ?_ depth
  · intro d hd r g
    rw [camera.ray_color_nonpos E ops c world r d g hd]
  · intro d hd ih r g
    rw [camera.ray_color_pos E ops c world r d g hd]
    cases hh : world.hit r ⟨1 / 1000, E.infinity⟩ with
    | none => exact hbg
    | some rec =>
      simp only []
      split
      · simp only [hem, ih]
        exact vec3.zero_add_mul_zero _
      · exact hem _

/-- The iterative integrator started from `acc` and `thr` returns `acc` plus `thr`
times the colour of the recursive integrator, and the same generator state. -/
theorem ray_color_loop_eq (E : Env F G) (ops : material_ops F M G) (c : camera F)
    (world : hittable F M) (depth : Int) :
    ∀ (acc thr : color F) (r : ray F) (g : G),
      ray_color_loop E ops c world acc thr r depth g
        = (acc + thr * (c.ray_color E ops world r depth g).color,
            (c.ray_color E ops world r depth g).rng) := by
  refine depth_induction
    (fun d => ∀ (acc thr : color F) (r : ray F) (g : G),
      ray_color_loop E ops c world acc thr r d g
        = (acc + thr * (c.ray_color E ops world r d g).color,
            (c.ray_color E ops world r d g).rng)) ?_ ?_ depth
  · intro d hd acc thr r g
    rw [camera.ray_color_nonpos E ops c world r d g hd, ray_color_loop, if_pos hd]
    have : acc + thr * (⟨0, 0, 0⟩ : vec3 F) = acc := by ext <;> simp
    simp only [this]
  · intro d hd ih acc thr r g
    rw [camera.ray_color_pos E ops c world r d g hd, ray_color_loop_pos E ops c world acc thr r d g hd]
    cases hh : world.hit r ⟨1 / 1000, E.infinity⟩ with
    | none => rfl
    | some rec =>
      simp only []
      split
      · rw [ih]
        simp only [Prod.mk.injEq, and_true]
        ext <;> simp <;> ring
      · rfl

/-- C15: `ray_color` is defined for every integer depth, scene and material behaviour
(the recursion descends on the depth), it follows a single path (a call at depth
`d` causes at most `max(d, 0) + 1` invocations in all, itself included), and it
performs at most `max(d, 0)` scene queries and at most `max(d, 0)` `scatter` calls. -/
theorem ray_color_terminates_bounded (E : Env F G) (ops : material_ops F M G) (c : camera F)
    (world : hittable F M) (r : ray F) (depth : Int) (g : G) :
    (∃ t : traced F G, c.ray_color E ops world r depth g = t) ∧
      ((c.ray_color E ops world r depth g).hits : Int) ≤ max depth 0 ∧
      ((c.ray_color E ops world r depth g).scatters : Int) ≤ max depth 0 ∧
      ((c.ray_color E ops world r depth g).calls : Int) ≤ max depth 0 + 1 ∧
      1 ≤ (c.ray_color E ops world r depth g).calls := by
  obtain ⟨h1, h2, h3, h4⟩ := camera.ray_color_counts E ops c world depth r g
  have hm : ((depth.toNat : ℕ) : Int) = max depth 0 := by
    rw [Int.toNat_eq_max]
  refine ⟨⟨_, rfl⟩, ?_, ?_, ?_, h4⟩
  · rw [← hm]; exact_mod_cast h1
  · rw [← hm]; exact_mod_cast h2
  · rw [← hm]; exact_mod_cast h3

/-- C16: the recursive `ray_color` returns the same colour (and leaves the same
generator state) as the iterative loop started with a black accumulator and the
white attenuation `(1, 1, 1)`, for every ray, scene, depth and material behaviour. -/
theorem ray_color_eq_loop (E : Env F G) (ops : material_ops F M G) (c : camera F)
    (world : hittable F M) (r : ray F) (depth : Int) (g : G) :
    ((c.ray_color E ops world r depth g).color, (c.ray_color E ops world r depth g).rng)
      = ray_color_loop E ops c world ⟨0, 0, 0⟩ ⟨1, 1, 1⟩ r depth g := by
  rw [ray_color_loop_eq]
  simp only [Prod.mk.injEq, and_true]
  ext <;> simp

end Recursion

/-! ## Scatter directions -/

section ScatterDirections

variable {F : Type} [LinearOrderedField F] {G M : Type}

/-- A vector of squared length 1 is not near zero when the threshold `eps` satisfies
`3 * eps^2 ≤ 1`. -/
theorem vec3.unit_not_near_zero (E : Env F G) (n : vec3 F)
    (heps2 : 3 * (E.near_zero_eps * E.near_zero_eps) ≤ 1) (hn : n.length_squared = 1) :
    n.near_zero E = false := by
  by_contra hnz
  have hnz1 : n.near_zero E = true := by simpa using hnz
  simp only [vec3.near_zero, Bool.and_eq_true, decide_eq_true_eq] at hnz1
  obtain ⟨⟨hx, hy⟩, hz⟩ := hnz1
  have sq : ∀ a : F, |a| < E.near_zero_eps → a * a < E.near_zero_eps * E.near_zero_eps := by
    intro a ha
    have h1 : a * a = |a| * |a| := (abs_mul_abs_self a).symm
    rw [h1]
    exact mul_lt_mul'' ha ha (abs_nonneg a) (abs_nonneg a)
  have h1 := sq _ hx
  have h2 := sq _ hy
  have h3 := sq _ hz
  simp only [vec3.length_squared] at hn
  linarith

/-- The zero vector is near zero when the threshold is positive. -/
theorem vec3.zero_near_zero (E : Env F G) (heps : 0 < E.near_zero_eps) :
    (⟨0, 0, 0⟩ : vec3 F).near_zero E = true := by
  simp [vec3.near_zero, heps]

/-- The scalar product of a reflected vector with a normal of squared length 1. -/
theorem dot_reflect_unit_normal (v n : vec3 F) (hn : n.length_squared = 1) :
    dot (reflect v n) n = -dot v n := by
  simp only [vec3.length_squared] at hn
  simp only [dot, reflect, vec3.sub_x, vec3.sub_y, vec3.sub_z, vec3.smul_x, vec3.smul_y,
    vec3.smul_z]
  linear_combination (-2 * (v.x * n.x + v.y * n.y + v.z * n.z)) * hn

/-- C17: `lambertian::scatter` produces a ray with origin `p` and direction `n + q`, except
that the direction is `n` itself when `n + q` is near zero.  Consequently, when `n`
has unit length (and the threshold `eps` of `near_zero` is positive with
`3 * eps^2 ≤ 1`), the scattered direction is neither the zero vector nor near zero. -/
theorem lambertian_scatter_direction (E : Env F G) (m : lambertian F) (r_in : ray F)
    (rec : hit_record F M) (g : G) :
    (m.scatter E r_in rec g).1.scattered.origin = rec.p ∧
      (m.scatter E r_in rec g).1.scattered.direction
        = (if (rec.normal + (E.random_unit_vector g).1).near_zero E then rec.normal
            else rec.normal + (E.random_unit_vector g).1) ∧
      (0 < E.near_zero_eps → 3 * (E.near_zero_eps * E.near_zero_eps) ≤ 1 →
        rec.normal.length_squared = 1 →
        (m.scatter E r_in rec g).1.scattered.direction ≠ ⟨0, 0, 0⟩ ∧
          (m.scatter E r_in rec g).1.scattered.direction.near_zero E = false) := by
  refine ⟨rfl, rfl, ?_⟩
  intro heps heps2 hn
  have hdir : (m.scatter E r_in rec g).1.scattered.direction
      = (if (rec.normal + (E.random_unit_vector g).1).near_zero E then rec.normal
          else rec.normal + (E.random_unit_vector g).1) := rfl
  have hnear : (m.scatter E r_in rec g).1.scattered.direction.near_zero E = false := by
    rw [hdir]
    split
    · exact vec3.unit_not_near_zero E _ heps2 hn
    · rename_i h
      simpa using h
  refine ⟨?_, hnear⟩
  intro h0
  rw [h0, vec3.zero_near_zero E heps] at hnear
  exact Bool.noConfusion hnear

/-- C19: for a metal with fuzz 0, a normal `n` of unit length and an incoming direction
`d ≠ 0`, `dot(reflect(unit(d), n), n) = -dot(unit(d), n)`; hence `metal::scatter`
returns true exactly when `dot(d, n) < 0`: it absorbs the rays that graze the
surface (`dot = 0`) and those that arrive along the normal.  The square root is
assumed positive on positive numbers. -/
theorem metal_mirror_scatter_iff (E : Env F G) (m : metal F) (r_in : ray F)
    (rec : hit_record F M) (g : G) (hf : m.fuzz = 0)
    (hn : rec.normal.length_squared = 1) (hd : r_in.direction ≠ ⟨0, 0, 0⟩)
    (hsqrt : ∀ x : F, 0 < x → 0 < E.sqrt x) :
    dot (reflect (unit_vector E r_in.direction) rec.normal) rec.normal
        = -dot (unit_vector E r_in.direction) rec.normal ∧
      ((m.scatter E r_in rec g).1.ok = true ↔ dot r_in.direction rec.normal < 0) ∧
      (0 ≤ dot r_in.direction rec.normal → (m.scatter E r_in rec g).1.ok = false) := by
  have hL : 0 < E.sqrt r_in.direction.length_squared :=
    hsqrt _ (vec3.length_squared_pos _ hd)
  have hinv : 0 < 1 / E.sqrt r_in.direction.length_squared := one_div_pos.mpr hL
  have hrefl := dot_reflect_unit_normal (unit_vector E r_in.direction) rec.normal hn
  have hunit : dot (unit_vector E r_in.direction) rec.normal
      = 1 / E.sqrt r_in.direction.length_squared * dot r_in.direction rec.normal := by
    rw [unit_vector, vec3.length, dot_div_left]
  have hok : (m.scatter E r_in rec g).1.ok
      = decide (dot (reflect (unit_vector E r_in.direction) rec.normal) rec.normal > 0) := by
    simp only [metal.scatter, hf]
    rw [vec3.add_zero_smul]
  have hiff : (m.scatter E r_in rec g).1.ok = true ↔ dot r_in.direction rec.normal < 0 := by
    rw [hok, hrefl, hunit]
    simp only [gt_iff_lt, decide_eq_true_eq, Left.neg_pos_iff]
    constructor
    · intro h
      by_contra hge
      have hge1 : 0 ≤ dot r_in.direction rec.normal := not_lt.mp hge
      have := mul_nonneg hinv.le hge1
      exact absurd h (not_lt.mpr this)
    · intro h
      exact mul_neg_of_pos_of_neg hinv h
  refine ⟨hrefl, hiff, ?_⟩
  intro hge
  cases hb : (m.scatter E r_in rec g).1.ok with
  | false => rfl
  | true => exact absurd (hiff.mp hb) (not_lt.mpr hge)

end ScatterDirections

/-! ## Scatter directions at the concrete inputs -/

section ScatterDemo

/-- Witness of C17: the diffuse material on the plane, where the random vector is the
normal itself. -/
theorem lambertian_scatter_direction_witness :
    (0 < demo_env.near_zero_eps ∧
        3 * (demo_env.near_zero_eps * demo_env.near_zero_eps) ≤ 1 ∧
        (demo_hit ()).normal.length_squared = 1) ∧
      ((demo_lambertian.scatter demo_env demo_ray (demo_hit ()) 0).1.scattered.origin
          = (demo_hit ()).p ∧
        (demo_lambertian.scatter demo_env demo_ray (demo_hit ()) 0).1.scattered.direction
          = (if ((demo_hit ()).normal + (demo_env.random_unit_vector 0).1).near_zero demo_env
              then (demo_hit ()).normal
              else (demo_hit ()).normal + (demo_env.random_unit_vector 0).1) ∧
        (0 < demo_env.near_zero_eps →
          3 * (demo_env.near_zero_eps * demo_env.near_zero_eps) ≤ 1 →
          (demo_hit ()).normal.length_squared = 1 →
          (demo_lambertian.scatter demo_env demo_ray (demo_hit ()) 0).1.scattered.direction
              ≠ ⟨0, 0, 0⟩ ∧
            (demo_lambertian.scatter demo_env demo_ray
              (demo_hit ()) 0).1.scattered.direction.near_zero demo_env = false)) :=
  ⟨⟨by norm_num [demo_env], by norm_num [demo_env],
      by norm_num [demo_hit, vec3.length_squared]⟩,
    lambertian_scatter_direction demo_env demo_lambertian demo_ray (demo_hit ()) 0⟩

/-- Witness of C19: the mirror `demo_mirror` and the ray `demo_ray`, which arrives
against the normal. -/
theorem metal_mirror_scatter_iff_witness :
    demo_mirror.fuzz = 0 ∧ (demo_hit ()).normal.length_squared = 1 ∧
      demo_ray.direction ≠ ⟨0, 0, 0⟩ ∧ (∀ x : ℚ, 0 < x → 0 < demo_env.sqrt x) ∧
      (dot (reflect (unit_vector demo_env demo_ray.direction) (demo_hit ()).normal)
            (demo_hit ()).normal
          = -dot (unit_vector demo_env demo_ray.direction) (demo_hit ()).normal ∧
        ((demo_mirror.scatter demo_env demo_ray (demo_hit ()) 0).1.ok = true
          ↔ dot demo_ray.direction (demo_hit ()).normal < 0) ∧
        (0 ≤ dot demo_ray.direction (demo_hit ()).normal
          → (demo_mirror.scatter demo_env demo_ray (demo_hit ()) 0).1.ok = false)) :=
  ⟨rfl, by norm_num [demo_hit, vec3.length_squared], by simp [demo_ray, vec3.ext_iff],
    rat_sqrt_pos,
    metal_mirror_scatter_iff demo_env demo_mirror demo_ray (demo_hit ()) 0 rfl
      (by norm_num [demo_hit, vec3.length_squared]) (by simp [demo_ray, vec3.ext_iff])
      rat_sqrt_pos⟩

end ScatterDemo

/-! ## The output of `render` -/

section RenderLemmas

variable {F : Type} [LinearOrderedField F] {G M : Type}

/-- The sample loop over any list of indices accumulates the successive samples. -/
theorem camera.sample_loop_eq (E : Env F G) (ops : material_ops F M G) (c : camera F)
    (world : hittable F M) (i j : Int) (ks : List ℕ) :
    ∀ (acc : color F) (g : G),
      ks.foldl
          (fun (st : color F × G) (_k : ℕ) =>
            ((st.1 + (c.ray_color E ops world (c.get_ray E i j st.2).1 c.max_depth
                (c.get_ray E i j st.2).2).color,
              (c.ray_color E ops world (c.get_ray E i j st.2).1 c.max_depth
                (c.get_ray E i j st.2).2).rng) : color F × G))
          (acc, g)
        = ((c.samples E ops world i j ks.length g).1.foldl (fun a b => a + b) acc,
            (c.samples E ops world i j ks.length g).2) := by
  induction ks with
  | nil => intro acc g; rfl
  | cons k ks ih =>
    intro acc g
    simp only [List.foldl_cons, List.length_cons, camera.samples]
    rw [ih]

/-- The accumulated colour of a pixel is the sum, from black, of its samples. -/
theorem camera.render_pixel_eq (E : Env F G) (ops : material_ops F M G) (c : camera F)
    (world : hittable F M) (i j : Int) (g : G) :
    c.render_pixel E ops world i j g
      = ((c.samples E ops world i j c.samples_per_pixel.toNat g).1.foldl
            (fun a b => a + b) ⟨0, 0, 0⟩,
          (c.samples E ops world i j c.samples_per_pixel.toNat g).2) := by
  have h := camera.sample_loop_eq E ops c world i j (List.range c.samples_per_pixel.toNat)
    ⟨0, 0, 0⟩ g
  rw [List.length_range] at h
  unfold camera.render_pixel for_loop
  exact h

/-- The number of samples in the list. -/
theorem camera.samples_length (E : Env F G) (ops : material_ops F M G) (c : camera F)
    (world : hittable F M) (i j : Int) (n : ℕ) :
    ∀ g : G, (c.samples E ops world i j n g).1.length = n := by
  induction n with
  | zero => intro g; rfl
  | succ k ih => intro g; simp [camera.samples, ih]

/-- The specification of the pixels of two lists of coordinates in sequence. -/
theorem camera.pixels_spec_append (E : Env F G) (ops : material_ops F M G) (c : camera F)
    (world : hittable F M) (a b : List (Int × Int)) :
    ∀ g : G, c.pixels_spec E ops world (a ++ b) g
      = ((c.pixels_spec E ops world a g).1
            ++ (c.pixels_spec E ops world b (c.pixels_spec E ops world a g).2).1,
          (c.pixels_spec E ops world b (c.pixels_spec E ops world a g).2).2) := by
  induction a with
  | nil => intro g; rfl
  | cons x xs ih =>
    intro g
    rw [List.cons_append]
    simp only [camera.pixels_spec]
    rw [ih]
    rfl

/-- The number of items in the specification of the pixels. -/
theorem camera.pixels_spec_length (E : Env F G) (ops : material_ops F M G) (c : camera F)
    (world : hittable F M) (l : List (Int × Int)) :
    ∀ g : G, (c.pixels_spec E ops world l g).1.length = l.length := by
  induction l with
  | nil => intro g; rfl
  | cons x xs ih => intro g; simp [camera.pixels_spec, ih]

/-- The column loop over any list of columns appends the pixels of these columns. -/
theorem camera.column_loop_eq (E : Env F G) (ops : material_ops F M G) (c : camera F)
    (world : hittable F M) (j : Int) (cols : List ℕ) :
    ∀ s : render_state F G,
      cols.foldl
          (fun (st : render_state F G) (i : ℕ) =>
            ({ st with
                cout := st.cout
                  ++ [out_item.pixel (c.render_pixel E ops world (i : Int) j st.rng).1
                        c.samples_per_pixel],
                rng := (c.render_pixel E ops world (i : Int) j st.rng).2 } :
              render_state F G))
          s
        = ⟨s.cout ++ (c.pixels_spec E ops world (cols.map (fun (i : ℕ) => ((i : Int), j))) s.rng).1,
            s.clog,
            (c.pixels_spec E ops world (cols.map (fun (i : ℕ) => ((i : Int), j))) s.rng).2⟩ := by
  induction cols with
  | nil => intro s; simp [camera.pixels_spec]
  | cons i cols ih =>
    intro s
    simp only [List.foldl_cons, List.map_cons, camera.pixels_spec]
    rw [ih]
    simp only [camera.render_pixel_eq, List.append_assoc, List.singleton_append]

/-- One scanline: the log entry and the pixels of the row. -/
theorem camera.render_row_eq (E : Env F G) (ops : material_ops F M G) (c : camera F)
    (world : hittable F M) (j : Int) (s : render_state F G) :
    c.render_row E ops world j s
      = ⟨s.cout ++ (c.pixels_spec E ops world
            ((List.range c.image_width.toNat).map (fun (i : ℕ) => ((i : Int), j))) s.rng).1,
          s.clog ++ [log_item.remaining (c.image_height - j)],
          (c.pixels_spec E ops world
            ((List.range c.image_width.toNat).map (fun (i : ℕ) => ((i : Int), j))) s.rng).2⟩ := by
  unfold camera.render_row for_loop
  exact camera.column_loop_eq E ops c world j (List.range c.image_width.toNat) _

/-- The scanline loop over any list of rows appends the pixels row by row. -/
theorem camera.row_loop_eq (E : Env F G) (ops : material_ops F M G) (c : camera F)
    (world : hittable F M) (rows : List ℕ) :
    ∀ s : render_state F G,
      rows.foldl (fun (st : render_state F G) (j : ℕ) => c.render_row E ops world (j : Int) st) s
        = ⟨s.cout ++ (c.pixels_spec E ops world
              (rows.flatMap (fun (j : ℕ) =>
                (List.range c.image_width.toNat).map (fun (i : ℕ) => ((i : Int), (j : Int)))))
              s.rng).1,
            s.clog ++ rows.map (fun (j : ℕ) => log_item.remaining (c.image_height - (j : Int))),
            (c.pixels_spec E ops world
              (rows.flatMap (fun (j : ℕ) =>
                (List.range c.image_width.toNat).map (fun (i : ℕ) => ((i : Int), (j : Int)))))
              s.rng).2⟩ := by
  induction rows with
  | nil => intro s; simp [camera.pixels_spec]
  | cons j rows ih =>
    intro s
    simp only [List.foldl_cons, List.flatMap_cons, List.map_cons]
    rw [ih, camera.render_row_eq, camera.pixels_spec_append]
    simp only [List.append_assoc, List.singleton_append]

/-- The number of pixel coordinates in row-major order. -/
theorem row_major_length (w h : Int) : (row_major w h).length = w.toNat * h.toNat := by
  have key : ∀ l : List ℕ,
      (l.flatMap (fun (j : ℕ) =>
        (List.range w.toNat).map (fun (i : ℕ) => ((i : Int), (j : Int))))).length
        = w.toNat * l.length := by
    intro l
    induction l with
    | nil => simp
    | cons j l ih =>
      rw [List.flatMap_cons, List.length_append, ih, List.length_map, List.length_range,
        List.length_cons]
      ring
  rw [row_major, key, List.length_range]

/-- What `render` returns on a configuration that `initialize` accepts. -/
theorem camera.render_eq [FloorRing F] (E : Env F G) (ops : material_ops F M G)
    (c0 c : camera F) (world : hittable F M) (g : G)
    (hinit : camera.initialize E c0 = some c) :
    c0.render E ops world g
      = some ⟨out_item.header c.image_width c.image_height 255
            :: (c.pixels_spec E ops world (row_major c.image_width c.image_height) g).1,
          (List.range c.image_height.toNat).map
              (fun (j : ℕ) => log_item.remaining (c.image_height - (j : Int)))
            ++ [log_item.done],
          (c.pixels_spec E ops world (row_major c.image_width c.image_height) g).2⟩ := by
  unfold camera.render
  rw [hinit]
  simp only [for_loop]
  rw [camera.row_loop_eq]
  simp [row_major]

/-- With a black background and black emission every sample is black. -/
theorem camera.samples_black (E : Env F G) (ops : material_ops F M G) (c : camera F)
    (world : hittable F M) (hbg : c.background = ⟨0, 0, 0⟩)
    (hem : ∀ m, ops.emitted m = ⟨0, 0, 0⟩) (i j : Int) (n : ℕ) :
    ∀ g : G, ∀ x ∈ (c.samples E ops world i j n g).1, x = (⟨0, 0, 0⟩ : color F) := by
  induction n with
  | zero => intro g x hx; simp [camera.samples] at hx
  | succ k ih =>
    intro g x hx
    simp only [camera.samples, List.mem_cons] at hx
    rcases hx with hx | hx
    · rw [hx]
      exact camera.ray_color_black E ops c world hbg hem _ _ _
    · exact ih _ x hx

/-- The sum from black of a list of black colours is black. -/
theorem foldl_add_black (l : List (color F)) (h : ∀ x ∈ l, x = (⟨0, 0, 0⟩ : color F)) :
    l.foldl (fun a b => a + b) ⟨0, 0, 0⟩ = (⟨0, 0, 0⟩ : color F) := by
  induction l with
  | nil => rfl
  | cons x xs ih =>
    have hx : x = ⟨0, 0, 0⟩ := h x (List.mem_cons_self _ _)
    have h0 : (⟨0, 0, 0⟩ : color F) + ⟨0, 0, 0⟩ = ⟨0, 0, 0⟩ := by ext <;> simp
    rw [List.foldl_cons, hx, h0]
    exact ih (fun y hy => h y (List.mem_cons_of_mem _ hy))

/-- With a black background and black emission every specified pixel is black. -/
theorem camera.pixels_spec_black (E : Env F G) (ops : material_ops F M G) (c : camera F)
    (world : hittable F M) (hbg : c.background = ⟨0, 0, 0⟩)
    (hem : ∀ m, ops.emitted m = ⟨0, 0, 0⟩) (l : List (Int × Int)) :
    ∀ g : G, ∀ item ∈ (c.pixels_spec E ops world l g).1,
      item = out_item.pixel ⟨0, 0, 0⟩ c.samples_per_pixel := by
  induction l with
  | nil => intro g item hi; simp [camera.pixels_spec] at hi
  | cons x xs ih =>
    intro g item hi
    simp only [camera.pixels_spec, List.mem_cons] at hi
    rcases hi with hi | hi
    · rw [hi, foldl_add_black _ (camera.samples_black E ops c world hbg hem _ _ _ _)]
    · exact ih _ item hi

/-- The image height of the configuration of `main` is 225. -/
theorem main_camera_trunc [FloorRing F] :
    trunc (((main_camera : camera F).image_width : F) / (main_camera : camera F).aspect_ratio)
      = 225 := by
  have h : (((main_camera : camera F).image_width : F) / (main_camera : camera F).aspect_ratio)
      = ((225 : ℕ) : F) := by
    simp only [main_camera]
    norm_num
  rw [h, trunc, if_pos (Nat.cast_nonneg _), Int.floor_natCast]
  rfl

/-- The header that `render` writes for the configuration of `main`. -/
theorem main_camera_header [FloorRing F] (E : Env F G) (ops : material_ops F M G)
    (world : hittable F M) (g : G) :
    ∃ st, (main_camera : camera F).render E ops world g = some st ∧
      st.cout.head? = some (out_item.header 400 225 255) := by
  obtain ⟨c, hc⟩ := camera.initialize_isSome E (main_camera : camera F)
    (by rw [main_camera_trunc]; decide)
  have hh : c.image_height = 225 := by
    rw [camera.initialize_image_height E _ c hc, main_camera_trunc]
    decide
  have hw : c.image_width = 400 := (camera.initialize_public E _ c hc).2.2.2.1
  refine ⟨_, camera.render_eq E ops _ c world g hc, ?_⟩
  simp [hh, hw]

/-- C14: with the output modelled as a list, `render` writes the header `P3`,
`image_width`, `image_height`, 255 and then one pixel for each coordinate in
row-major order, `image_width * image_height` pixels in all; each pixel passed to
`write_color` is the sum of the `samples_per_pixel` successive values
`ray_color(get_ray(i, j), world, max_depth)`, together with the count
`samples_per_pixel`.  For the configuration of `main` the header dimensions are 400
and 225. -/
theorem render_output [FloorRing F] (E : Env F G) (ops : material_ops F M G)
    (c0 c : camera F) (world : hittable F M) (g : G)
    (hinit : camera.initialize E c0 = some c) :
    (∃ st, c0.render E ops world g = some st ∧
        st.cout = out_item.header c.image_width c.image_height 255
          :: (c.pixels_spec E ops world (row_major c.image_width c.image_height) g).1 ∧
        st.rng = (c.pixels_spec E ops world (row_major c.image_width c.image_height) g).2) ∧
      c.image_width = c0.image_width ∧
      (c.pixels_spec E ops world (row_major c.image_width c.image_height) g).1.length
        = c.image_width.toNat * c.image_height.toNat ∧
      (0 ≤ c.image_width →
        (((c.pixels_spec E ops world
            (row_major c.image_width c.image_height) g).1.length : ℕ) : Int)
          = c.image_width * c.image_height) ∧
      (∀ (i j : Int) (n : ℕ) (g1 : G), (c.samples E ops world i j n g1).1.length = n) ∧
      (∀ (ops1 : material_ops F M G) (world1 : hittable F M) (g1 : G),
        ∃ st, (main_camera : camera F).render E ops1 world1 g1 = some st ∧
          st.cout.head? = some (out_item.header 400 225 255)) := by
  have hlen : (c.pixels_spec E ops world (row_major c.image_width c.image_height) g).1.length
      = c.image_width.toNat * c.image_height.toNat := by
    rw [camera.pixels_spec_length, row_major_length]
  have hh : 1 ≤ c.image_height := by
    rw [camera.initialize_image_height E c0 c hinit]
    exact le_max_left _ _
  refine ⟨⟨_, camera.render_eq E ops c0 c world g hinit, rfl, rfl⟩,
    (camera.initialize_public E c0 c hinit).2.2.2.1, hlen, ?_,
    fun i j n g1 => camera.samples_length E ops c world i j n g1,
    fun ops1 world1 g1 => main_camera_header E ops1 world1 g1⟩
  intro hw
  rw [hlen]
  push_cast
  rw [Int.toNat_of_nonneg hw, Int.toNat_of_nonneg (by omega)]

/-- C18: with a black background and materials whose `emitted()` is black, `ray_color`
returns black for every ray, scene and depth, whatever the attenuations and the
scatter decisions are, and every pixel colour that `render` passes to `write_color`
is black.  In particular this holds for the configuration of `main` (default black
background) on every scene of lambertian and metal surfaces. -/
theorem render_black [FloorRing F] (E : Env F G) (ops : material_ops F M G)
    (c0 : camera F) (world : hittable F M) (hbg : c0.background = ⟨0, 0, 0⟩)
    (hem : ∀ m, ops.emitted m = ⟨0, 0, 0⟩) :
    (∀ (r : ray F) (depth : Int) (g : G),
        (c0.ray_color E ops world r depth g).color = ⟨0, 0, 0⟩) ∧
      (∀ (g : G) (st : render_state F G), c0.render E ops world g = some st →
        ∀ (col : color F) (n : Int), out_item.pixel col n ∈ st.cout → col = ⟨0, 0, 0⟩) ∧
      (∀ (scene : hittable F (material F)) (g : G) (st : render_state F G),
        (main_camera : camera F).render E (material.ops E) scene g = some st →
        ∀ (col : color F) (n : Int), out_item.pixel col n ∈ st.cout → col = ⟨0, 0, 0⟩) := by
  have key : ∀ (M1 : Type) (ops1 : material_ops F M1 G) (c1 : camera F)
      (world1 : hittable F M1), c1.background = ⟨0, 0, 0⟩ →
      (∀ m, ops1.emitted m = ⟨0, 0, 0⟩) →
      ∀ (g : G) (st : render_state F G), c1.render E ops1 world1 g = some st →
        ∀ (col : color F) (n : Int), out_item.pixel col n ∈ st.cout → col = ⟨0, 0, 0⟩ := by
    intro M1 ops1 c1 world1 hbg1 hem1 g st hst col n hmem
    cases hi : camera.initialize E c1 with
    | none =>
      unfold camera.render at hst
      rw [hi] at hst
      cases hst
    | some c =>
      have hb : c.background = ⟨0, 0, 0⟩ := by
        rw [(camera.initialize_public E c1 c hi).2.2.1]; exact hbg1
      rw [camera.render_eq E ops1 c1 c world1 g hi] at hst
      cases hst
      simp only [List.mem_cons] at hmem
      rcases hmem with hmem | hmem
      · cases hmem
      · have := camera.pixels_spec_black E ops1 c world1 hb hem1 _ g _ hmem
        cases this
        rfl
  refine ⟨fun r depth g => camera.ray_color_black E ops c0 world hbg hem depth r g,
    key M ops c0 world hbg hem, ?_⟩
  intro scene
  exact key (material F) (material.ops E) main_camera scene rfl (fun _ => rfl)

end RenderLemmas

/-! ## The output of `render` at the concrete inputs -/

section RenderDemo

/-- The quotient of `demo_small` truncates to 2. -/
theorem demo_small_trunc :
    trunc ((demo_small.image_width : ℚ) / demo_small.aspect_ratio) = 2 := by
  norm_num [trunc, demo_small, demo_camera]

/-- Witness of C14: the 2 by 2 configuration with 2 samples per pixel on the plane. -/
theorem render_output_witness :
    ∃ c, camera.initialize demo_env demo_small = some c ∧
      ((∃ st, demo_small.render demo_env demo_ops (demo_plane true) 0 = some st ∧
          st.cout = out_item.header c.image_width c.image_height 255
            :: (c.pixels_spec demo_env demo_ops (demo_plane true)
                (row_major c.image_width c.image_height) 0).1 ∧
          st.rng = (c.pixels_spec demo_env demo_ops (demo_plane true)
                (row_major c.image_width c.image_height) 0).2) ∧
        c.image_width = demo_small.image_width ∧
        (c.pixels_spec demo_env demo_ops (demo_plane true)
            (row_major c.image_width c.image_height) 0).1.length
          = c.image_width.toNat * c.image_height.toNat ∧
        (0 ≤ c.image_width →
          (((c.pixels_spec demo_env demo_ops (demo_plane true)
              (row_major c.image_width c.image_height) 0).1.length : ℕ) : Int)
            = c.image_width * c.image_height) ∧
        (∀ (i j : Int) (n : ℕ) (g1 : ℕ),
          (c.samples demo_env demo_ops (demo_plane true) i j n g1).1.length = n) ∧
        (∀ (ops1 : material_ops ℚ Bool ℕ) (world1 : hittable ℚ Bool) (g1 : ℕ),
          ∃ st, (main_camera : camera ℚ).render demo_env ops1 world1 g1 = some st ∧
            st.cout.head? = some (out_item.header 400 225 255))) := by
  obtain ⟨c, hc⟩ := camera.initialize_isSome demo_env demo_small
    (by rw [demo_small_trunc]; decide)
  exact ⟨c, hc, render_output demo_env demo_ops demo_small c (demo_plane true) 0 hc⟩

/-- Witness of C18: the configuration of `main` with a mirror on the plane. -/
theorem render_black_witness :
    (main_camera : camera ℚ).background = ⟨0, 0, 0⟩ ∧
      (∀ m, (material.ops demo_env).emitted m = (⟨0, 0, 0⟩ : color ℚ)) ∧
      ((∀ (r : ray ℚ) (depth : Int) (g : ℕ),
          ((main_camera : camera ℚ).ray_color demo_env (material.ops demo_env)
            (demo_plane (material.metal demo_mirror)) r depth g).color = ⟨0, 0, 0⟩) ∧
        (∀ (g : ℕ) (st : render_state ℚ ℕ),
          (main_camera : camera ℚ).render demo_env (material.ops demo_env)
            (demo_plane (material.metal demo_mirror)) g = some st →
          ∀ (col : color ℚ) (n : Int), out_item.pixel col n ∈ st.cout → col = ⟨0, 0, 0⟩) ∧
        (∀ (scene : hittable ℚ (material ℚ)) (g : ℕ) (st : render_state ℚ ℕ),
          (main_camera : camera ℚ).render demo_env (material.ops demo_env) scene g = some st →
          ∀ (col : color ℚ) (n : Int), out_item.pixel col n ∈ st.cout → col = ⟨0, 0, 0⟩)) :=
  ⟨rfl, fun _ => rfl,
    render_black demo_env (material.ops demo_env) main_camera
      (demo_plane (material.metal demo_mirror)) rfl (fun _ => rfl)⟩

end RenderDemo

end RayPortals
